import Mathlib

/-!
Verification development for the `vision-graph-lab` algorithm-trace engine
(`src/lib/algorithms.ts` together with the shared types in
`src/lib/graph-types.ts` and the step player in the algorithm-controls
component).

Modelling conventions:
* JavaScript numbers that the engine actually manipulates are integers or
  `Infinity`; they are embedded as `Int` and `WithTop Int` (`⊤` standing for
  `Infinity`).  `Infinity + w = Infinity` and the comparison behaviour of
  `Infinity` agree with the `WithTop` order.
* `edge.weight || 1` is embedded by `wOf`: the default `1` is used both when
  the weight is absent and when it is `0` (JavaScript `||` treats `0` as
  falsy).
* Unbounded `while` loops are embedded with an explicit fuel parameter; when
  the fuel runs out the loop returns the state reached so far.  `for` loops
  are embedded structurally.
* JavaScript `Array.prototype.sort` (stable since ES2019) is embedded by a
  stable insertion sort `sortByLt`.
* A JavaScript `Set` iterated in insertion order is embedded as a duplicate
  free list with `setAdd`.
-/

namespace VisionGraph

/-- `state` field of a graph node (`graph-types.ts`). -/
inductive NState where
  | default
  | current
  | visited
  | error
deriving DecidableEq, Repr

/-- `GraphNode` of `graph-types.ts`; `x`,`y` positions are integral. -/
structure GraphNode where
  id : String
  label : String
  x : Option Int := none
  y : Option Int := none
  state : Option NState := none
  distance : Option (WithTop Int) := none
deriving DecidableEq, Repr

/-- `GraphEdge` of `graph-types.ts`. -/
structure GraphEdge where
  id : String
  source : String
  target : String
  weight : Option Int := none
  isActive : Bool := false
  isInMST : Option Bool := none
  inTree : Option Bool := none
  isError : Option Bool := none
deriving DecidableEq, Repr

/-- `GraphData` of `graph-types.ts`. -/
structure GraphData where
  nodes : List GraphNode
  edges : List GraphEdge
deriving DecidableEq, Repr

/-- An entry of a step's `nodeUpdates` array: `Partial<GraphNode>` carrying an
`id` plus the optional changed fields actually used by the engine. -/
structure NodeUpdate where
  id : String
  state : Option NState := none
  distance : Option (WithTop Int) := none
deriving DecidableEq, Repr

/-- An entry of a step's `edgeUpdates` array: `Partial<GraphEdge>`.  The `id`
is optional because the BFS/DFS/A* call sites emit entries carrying only
`source`/`target`. -/
structure EdgeUpdate where
  id : Option String := none
  source : Option String := none
  target : Option String := none
  isActive : Option Bool := none
  inTree : Option Bool := none
  isError : Option Bool := none
deriving DecidableEq, Repr

/-- The `matrix` payload of a step: either a flat map (Dijkstra and
Bellman-Ford distances), a nested map (Floyd-Warshall distances,
Ford-Fulkerson residual capacities), or the A* `{gScore, fScore}` pair. -/
inductive MatrixSnap where
  | flat : List (String × WithTop Int) → MatrixSnap
  | nested : List (String × List (String × WithTop Int)) → MatrixSnap
  | scores : List (String × WithTop Int) → List (String × WithTop Int) → MatrixSnap
deriving DecidableEq, Repr

/-- `AlgorithmStep` of `graph-types.ts`.  `codeLine` is always supplied by
`addStep`, hence not optional here. -/
structure AlgorithmStep where
  id : Nat
  description : String
  codeLine : Nat
  nodeUpdates : List NodeUpdate := []
  edgeUpdates : List EdgeUpdate := []
  queue : Option (List String) := none
  stack : Option (List String) := none
  result : Option (List String) := none
  list : Option (List String) := none
  array : Option (List String) := none
  matrix : Option MatrixSnap := none
deriving DecidableEq, Repr

/-- `OperationLogEntry` of `algorithms.ts`. -/
structure OperationLogEntry where
  iteration : Nat
  operation : String
  nodesVisited : List String
  queue : Option (List String) := none
  stack : Option (List String) := none
  result : Option (List String) := none
  list : Option (List String) := none
  array : Option (List String) := none
  matrix : Option MatrixSnap := none
deriving DecidableEq, Repr

/-- `AlgorithmExecution` of `algorithms.ts`. -/
structure AlgorithmExecution where
  steps : List AlgorithmStep
  currentStep : Nat
  isComplete : Bool
  operationLog : List OperationLogEntry
deriving DecidableEq, Repr

/-- The optional fields passed as the `updates` argument of `addStep`.  The
optional `description` models call sites that override the positional
description through the object spread `...updates`. -/
structure StepPayload where
  nodeUpdates : List NodeUpdate := []
  edgeUpdates : List EdgeUpdate := []
  description : Option String := none
  queue : Option (List String) := none
  stack : Option (List String) := none
  result : Option (List String) := none
  list : Option (List String) := none
  array : Option (List String) := none
  matrix : Option MatrixSnap := none
deriving DecidableEq, Repr

/-- The runner's private `steps`/`operationLog` buffers plus the `stepId`
counter every algorithm threads through its run. -/
structure TraceSt where
  steps : List AlgorithmStep := []
  log : List OperationLogEntry := []
  stepId : Nat := 0
deriving DecidableEq, Repr

/-- `getNode`: `this.graphData.nodes.find(n => n.id === nodeId)`. -/
def getNode (g : GraphData) (nodeId : String) : Option GraphNode :=
  g.nodes.find? (fun n => n.id = nodeId)

/-- `getNodeLabel`: `this.getNode(nodeId)?.label || nodeId` (an empty label is
falsy, hence replaced by the id). -/
def getNodeLabel (g : GraphData) (nodeId : String) : String :=
  match getNode g nodeId with
  | some n => if n.label = "" then nodeId else n.label
  | none => nodeId

/-- `getNeighbors`: all opposite endpoints of edges having `nodeId` as either
endpoint. -/
def getNeighbors (g : GraphData) (nodeId : String) : List String :=
  (g.edges.filter (fun e => e.source = nodeId || e.target = nodeId)).map
    (fun e => if e.source = nodeId then e.target else e.source)

/-- `edge.weight || 1`: default `1` when the weight is absent or `0`. -/
def wOf (e : GraphEdge) : Int :=
  match e.weight with
  | none => 1
  | some w => if w = 0 then 1 else w

/-- `Array.prototype.filter((v, i, arr) => arr.indexOf(v) === i)`: keep the
first occurrence of each element. -/
def dedupFirstAux : List String → List String → List String
  | _, [] => []
  | seen, x :: xs =>
    if x ∈ seen then dedupFirstAux seen xs else x :: dedupFirstAux (x :: seen) xs

/-- Deduplication keeping first occurrences, as used for `nodesVisited`. -/
def dedupFirst (l : List String) : List String := dedupFirstAux [] l

/-- `Set.prototype.add` on a set iterated in insertion order. -/
def setAdd (s : List String) (x : String) : List String :=
  if x ∈ s then s else s ++ [x]

/-- Stable insertion of `x` into a sorted list: `x` goes before every element
not strictly below it. -/
def insertByLt {α : Type} (lt : α → α → Bool) (x : α) : List α → List α
  | [] => [x]
  | y :: ys => if lt y x then y :: insertByLt lt x ys else x :: y :: ys

/-- Stable ascending sort, the embedding of `Array.prototype.sort` with a
`key a - key b` style comparator (`lt` being the strict key order). -/
def sortByLt {α : Type} (lt : α → α → Bool) (l : List α) : List α :=
  l.foldr (insertByLt lt) []

/-- `mapLabels` inside `addStep`: resolve each entry through `getNodeLabel`. -/
def mapLabels (g : GraphData) (l : Option (List String)) : Option (List String) :=
  l.map (fun xs => xs.map (getNodeLabel g))

/-- `addStep`: push the step assembled from the positional arguments and the
payload (whose `description`, when present, overrides the positional one via
the object spread), then append the derived operation-log entry, whose
`nodesVisited` rescans all steps pushed so far. -/
def addStep (g : GraphData) (st : TraceSt) (id : Nat) (description : String)
    (codeLine : Nat) (u : StepPayload) : TraceSt :=
  let step : AlgorithmStep :=
    { id := id
      description := u.description.getD description
      codeLine := codeLine
      nodeUpdates := u.nodeUpdates
      edgeUpdates := u.edgeUpdates
      queue := u.queue
      stack := u.stack
      result := u.result
      list := u.list
      array := u.array
      matrix := u.matrix }
  let steps' := st.steps ++ [step]
  let nodesVisited := dedupFirst
    (steps'.flatMap (fun s =>
      ((s.nodeUpdates.filter (fun nu => nu.state = some NState.visited)).map
        (fun nu => getNodeLabel g nu.id))))
  let entry : OperationLogEntry :=
    { iteration := id
      operation := description
      nodesVisited := nodesVisited
      queue := mapLabels g u.queue
      stack := mapLabels g u.stack
      result := mapLabels g u.result
      list := mapLabels g u.list
      array := mapLabels g u.array
      matrix := u.matrix }
  { st with steps := steps', log := st.log ++ [entry] }

/-- `this.addStep(stepId++, ...)`: emit a step with the current counter value
and bump the counter. -/
def pushStep (g : GraphData) (st : TraceSt) (description : String)
    (codeLine : Nat) (u : StepPayload) : TraceSt :=
  { addStep g st st.stepId description codeLine u with stepId := st.stepId + 1 }

/-- `createDefaultExecution`. -/
def createDefaultExecution (tr : TraceSt) : AlgorithmExecution :=
  { steps := tr.steps
    currentStep := 0
    isComplete := false
    operationLog := tr.log }

/-! ### The step player (`applyStep` in the algorithm-controls component)

The player applies one step to its copy of the graph by a shallow merge of
each update entry into the node/edge whose `id` equals the entry's `id`; an
entry without an `id` therefore matches no edge. -/

/-- `{...node, ...update}` for a matched node update. -/
def mergeNode (node : GraphNode) (u : NodeUpdate) : GraphNode :=
  { node with
    id := u.id
    state := match u.state with | some s => some s | none => node.state
    distance := match u.distance with | some d => some d | none => node.distance }

/-- `{...edge, ...update}` for a matched edge update. -/
def mergeEdge (edge : GraphEdge) (u : EdgeUpdate) : GraphEdge :=
  { edge with
    id := u.id.getD edge.id
    source := u.source.getD edge.source
    target := u.target.getD edge.target
    isActive := u.isActive.getD edge.isActive
    inTree := match u.inTree with | some b => some b | none => edge.inTree
    isError := match u.isError with | some b => some b | none => edge.isError }

/-- `applyStep`: shallow merge of the step's updates, keyed by id
(`step.nodeUpdates?.find(u => u.id === node.id)` and
`step.edgeUpdates?.find(u => u.id === edge.id)`). -/
def applyStep (g : GraphData) (step : AlgorithmStep) : GraphData :=
  { nodes := g.nodes.map (fun node =>
      match step.nodeUpdates.find? (fun u => u.id = node.id) with
      | some u => mergeNode node u
      | none => node)
    edges := g.edges.map (fun edge =>
      match step.edgeUpdates.find? (fun u => u.id = some edge.id) with
      | some u => mergeEdge edge u
      | none => edge) }

/-- Replaying a full step sequence in order. -/
def replaySteps (g : GraphData) (steps : List AlgorithmStep) : GraphData :=
  steps.foldl applyStep g

/-! ### BFS (`runBFS`) -/

/-- Loop state of `runBFS`. -/
structure BfsSt where
  tr : TraceSt
  visited : List String
  queue : List String
  visitOrder : List String
deriving DecidableEq, Repr

/-- One iteration of the inner neighbor loop of `runBFS`: enqueue the
neighbor when it is neither visited nor already in the queue, emitting the
corresponding step. -/
def bfsScanStep (g : GraphData) (currentId : String) (st : BfsSt)
    (neighborId : String) : BfsSt :=
  if neighborId ∉ st.visited ∧ neighborId ∉ st.queue then
    let queue' := st.queue ++ [neighborId]
    let lbl := getNodeLabel g neighborId
    { st with
      queue := queue'
      tr := pushStep g st.tr "Enqueue neighbor" 10
        { nodeUpdates := [{ id := neighborId, state := some NState.current }]
          edgeUpdates := [{ source := some currentId, target := some neighborId,
                            isActive := some true }]
          description := some s!"Added {lbl} to queue"
          queue := some (queue'.map (getNodeLabel g))
          result := some (st.visitOrder.map (getNodeLabel g)) } }
  else st

/-- The inner `for (const neighborId of this.getNeighbors(currentId))` loop of
`runBFS`. -/
def bfsScanNeighbors (g : GraphData) (currentId : String) (st : BfsSt) : BfsSt :=
  (getNeighbors g currentId).foldl (bfsScanStep g currentId) st

/-- The `while (queue.length > 0)` loop of `runBFS`, with fuel. -/
def bfsLoop (g : GraphData) : Nat → BfsSt → BfsSt
  | 0, st => st
  | fuel + 1, st =>
    match st.queue with
    | [] => st
    | currentId :: rest =>
      if currentId ∈ st.visited then
        let lbl := getNodeLabel g currentId
        bfsLoop g fuel
          { st with
            queue := rest
            tr := pushStep g st.tr "Node already visited" 6
              { description := some s!"Node {lbl} already visited, skipping."
                queue := some (rest.map (getNodeLabel g))
                result := some (st.visitOrder.map (getNodeLabel g)) } }
      else
        let visited' := st.visited ++ [currentId]
        let visitOrder' := st.visitOrder ++ [currentId]
        let lbl := getNodeLabel g currentId
        let st1 : BfsSt :=
          { st with
            queue := rest
            visited := visited'
            visitOrder := visitOrder'
            tr := pushStep g st.tr "Visit node" 7
              { nodeUpdates := [{ id := currentId, state := some NState.visited }]
                description := some s!"Visited node {lbl}"
                queue := some (rest.map (getNodeLabel g))
                result := some (visitOrder'.map (getNodeLabel g)) } }
        let st2 := bfsScanNeighbors g currentId st1
        let st3 :=
          { st2 with
            tr := pushStep g st2.tr "Queue State" 2
              { queue := some (st2.queue.map (getNodeLabel g))
                result := some (st2.visitOrder.map (getNodeLabel g)) } }
        bfsLoop g fuel st3

/-- `runBFS`. -/
def runBFS (g : GraphData) (startNodeId : String) (fuel : Nat) : AlgorithmExecution :=
  let lbl := getNodeLabel g startNodeId
  let st0 : BfsSt :=
    { tr := pushStep g {} "Initialize BFS" 1
        { nodeUpdates := [{ id := startNodeId, state := some NState.current }]
          description := some s!"Starting BFS from node {lbl}"
          queue := some [lbl]
          result := some [] }
      visited := []
      queue := [startNodeId]
      visitOrder := [] }
  let st1 := bfsLoop g fuel st0
  let tr2 := pushStep g st1.tr "BFS Complete" 11
    { description := some "Algorithm finished: all reachable nodes visited."
      result := some (st1.visitOrder.map (getNodeLabel g)) }
  createDefaultExecution tr2

/-! ### DFS (`runDFS`)

The stack is represented with its top at the end of the list, matching the
JavaScript array (`push` appends, `pop` removes the last element) and hence
the order shown by the `stack` snapshots. -/

/-- Loop state of `runDFS`. -/
structure DfsSt where
  tr : TraceSt
  visited : List String
  stack : List String
deriving DecidableEq, Repr

/-- One iteration of the inner neighbor loop of `runDFS`: push the neighbor
whenever it is unvisited (its presence on the stack is not checked), emitting
the corresponding step. -/
def dfsScanStep (g : GraphData) (currentId : String) (st : DfsSt)
    (neighborId : String) : DfsSt :=
  if neighborId ∉ st.visited then
    let stack' := st.stack ++ [neighborId]
    let lbl := getNodeLabel g neighborId
    { st with
      stack := stack'
      tr := pushStep g st.tr "Push neighbor to stack" 10
        { nodeUpdates := [{ id := neighborId, state := some NState.current }]
          edgeUpdates := [{ source := some currentId, target := some neighborId,
                            isActive := some true }]
          description := some s!"Added {lbl} to stack"
          stack := some (stack'.map (getNodeLabel g)) } }
  else st

/-- The inner neighbor loop of `runDFS`. -/
def dfsScanNeighbors (g : GraphData) (currentId : String) (st : DfsSt) : DfsSt :=
  (getNeighbors g currentId).foldl (dfsScanStep g currentId) st

/-- The `while (stack.length > 0)` loop of `runDFS`, with fuel. -/
def dfsLoop (g : GraphData) : Nat → DfsSt → DfsSt
  | 0, st => st
  | fuel + 1, st =>
    match st.stack.getLast? with
    | none => st
    | some currentId =>
      let rest := st.stack.dropLast
      if currentId ∈ st.visited then
        let lbl := getNodeLabel g currentId
        dfsLoop g fuel
          { st with
            stack := rest
            tr := pushStep g st.tr "Node already visited" 6
              { description := some s!"Node {lbl} already visited, skipping."
                stack := some (rest.map (getNodeLabel g)) } }
      else
        let visited' := st.visited ++ [currentId]
        let lbl := getNodeLabel g currentId
        let st1 : DfsSt :=
          { st with
            stack := rest
            visited := visited'
            tr := pushStep g st.tr "Visit node" 7
              { nodeUpdates := [{ id := currentId, state := some NState.visited }]
                description := some s!"Visited node {lbl}"
                stack := some (rest.map (getNodeLabel g)) } }
        let st2 := dfsScanNeighbors g currentId st1
        let st3 :=
          { st2 with
            tr := pushStep g st2.tr "Stack State" 2
              { stack := some (st2.stack.map (getNodeLabel g)) } }
        dfsLoop g fuel st3

/-- `runDFS`. -/
def runDFS (g : GraphData) (startNodeId : String) (fuel : Nat) : AlgorithmExecution :=
  let lbl := getNodeLabel g startNodeId
  let st0 : DfsSt :=
    { tr := pushStep g {} "Initialize DFS" 1
        { nodeUpdates := [{ id := startNodeId, state := some NState.current }]
          description := some s!"Starting DFS from node {lbl}"
          stack := some [lbl] }
      visited := []
      stack := [startNodeId] }
  let st1 := dfsLoop g fuel st0
  let tr2 := pushStep g st1.tr "DFS Complete" 11
    { description := some "Algorithm finished: all reachable nodes visited."
      stack := some (st1.stack.map (getNodeLabel g)) }
  createDefaultExecution tr2

/-! ### Dijkstra (`runDijkstra`)

The `distances` object is embedded as `String → Option (WithTop Int)`:
`none` models a missing key (JavaScript `undefined`, whose arithmetic
produces `NaN` and whose comparisons are all false), `some d` a stored
number, with `⊤` standing for `Infinity`. -/

/-- JavaScript number rendering for the values the engine prints. -/
def numStr (d : WithTop Int) : String :=
  Option.elim (α := Int) d "Infinity" (fun x => toString x)

/-- `{...distances}` rendered over the node keys. -/
def distSnapshot (g : GraphData) (dist : String → Option (WithTop Int)) : MatrixSnap :=
  MatrixSnap.flat (g.nodes.map (fun n => (n.id, (dist n.id).getD ⊤)))

/-- Loop state of `runDijkstra`: the priority "queue" is the plain array of
`{distance, nodeId}` pairs, fully re-sorted before every pop. -/
structure DijSt where
  tr : TraceSt
  dist : String → Option (WithTop Int)
  visited : List String
  pq : List (WithTop Int × String)

/-- One iteration of `runDijkstra`'s edge scan from `current`: skip visited
targets; relax when `distances[current] + weight < distances[neighbor]`
(false whenever either key is missing, as in JavaScript), pushing a fresh
queue entry and emitting the "Update distance" step. -/
def dijScanStep (g : GraphData) (currentId : String) (st : DijSt)
    (e : GraphEdge) : DijSt :=
  let neighborId := e.target
  if neighborId ∈ st.visited then st
  else
    match st.dist currentId, st.dist neighborId with
    | some du, some dv =>
      let newDistance := du + (wOf e : WithTop Int)
      if newDistance < dv then
        let dist' := fun v => if v = neighborId then some newDistance else st.dist v
        let pq' := st.pq ++ [(newDistance, neighborId)]
        let lbl := getNodeLabel g neighborId
        let nd := numStr newDistance
        { st with
          dist := dist'
          pq := pq'
          tr := pushStep g st.tr "Update distance" 12
            { nodeUpdates := [{ id := neighborId, distance := some newDistance,
                                state := some NState.current }]
              edgeUpdates := [{ id := some e.id, isActive := some true }]
              description := some s!"Update distance to {lbl}: {nd}"
              queue := some (pq'.map (fun item => getNodeLabel g item.2))
              matrix := some (distSnapshot g dist') } }
      else st
    | _, _ => st

/-- The `while (pq.length > 0)` loop of `runDijkstra`, with fuel. -/
def dijLoop (g : GraphData) : Nat → DijSt → DijSt
  | 0, st => st
  | fuel + 1, st =>
    match sortByLt (fun a b => a.1 < b.1) st.pq with
    | [] => st
    | current :: rest =>
      if current.2 ∈ st.visited then
        dijLoop g fuel { st with pq := rest }
      else if current.1 = ⊤ then
        { st with pq := rest }
      else
        let visited' := st.visited ++ [current.2]
        let lbl := getNodeLabel g current.2
        let cd := numStr current.1
        let st1 : DijSt :=
          { st with
            pq := rest
            visited := visited'
            tr := pushStep g st.tr "Process current node" 8
              { nodeUpdates := [{ id := current.2, state := some NState.visited }]
                description := some s!"Processing {lbl} (dist: {cd})"
                queue := some (rest.map (fun item => getNodeLabel g item.2))
                matrix := some (distSnapshot g st.dist) } }
        let st2 := (g.edges.filter (fun e => e.source = current.2)).foldl
          (dijScanStep g current.2) st1
        let st3 :=
          { st2 with
            tr := pushStep g st2.tr "Queue State" 2
              { queue := some (st2.pq.map (fun item => getNodeLabel g item.2))
                matrix := some (distSnapshot g st2.dist) } }
        dijLoop g fuel st3

/-- Initialisation of `runDijkstra`: distances `0` for the start node and
`Infinity` for every other node, the start entry pushed on the queue, and the
"Initialize Dijkstra" step (which carries no `matrix` field). -/
def dijInitSt (g : GraphData) (startNodeId : String) : DijSt :=
  let dist0 : String → Option (WithTop Int) := fun v =>
    if g.nodes.any (fun n => n.id = v) then
      some (if v = startNodeId then ((0 : Int) : WithTop Int) else ⊤)
    else none
  let pq0 : List (WithTop Int × String) := [(((0 : Int) : WithTop Int), startNodeId)]
  let lbl := getNodeLabel g startNodeId
  { tr := pushStep g {} "Initialize Dijkstra" 1
      { nodeUpdates := g.nodes.map (fun n =>
          { id := n.id
            distance := some (if n.id = startNodeId then ((0 : Int) : WithTop Int) else ⊤)
            state := some (if n.id = startNodeId then NState.current else NState.default) })
        description := some s!"Starting Dijkstra from {lbl}"
        queue := some (pq0.map (fun item => getNodeLabel g item.2)) }
    dist := dist0
    visited := []
    pq := pq0 }

/-- `runDijkstra`. -/
def runDijkstra (g : GraphData) (startNodeId : String) (fuel : Nat) :
    AlgorithmExecution :=
  let st1 := dijLoop g fuel (dijInitSt g startNodeId)
  let tr2 := pushStep g st1.tr "Dijkstra Complete" 14
    { description := some "Shortest path algorithm finished."
      queue := some (st1.pq.map (fun item => getNodeLabel g item.2))
      matrix := some (distSnapshot g st1.dist) }
  createDefaultExecution tr2

/-! ### Bellman-Ford (`runBellmanFord`)

All loops of `runBellmanFord` are `for` loops, so no fuel is needed: the
outer relaxation loop runs at most `|V| - 1` passes (breaking early after a
pass without updates), then one more scan decides between the
"negative cycle" and the "complete" terminal step. -/

/-- `nodes.map(n => n.id)`. -/
def nodeIds (g : GraphData) : List String := g.nodes.map (fun n => n.id)

/-- The Bellman-Ford relaxation test
`distances[u] !== Infinity && distances[u] + w < distances[v]`:
false whenever either key is missing (JavaScript `undefined`/`NaN`
comparisons) or the source distance is `Infinity`. -/
def bfRelaxable (dist : String → Option (WithTop Int)) (e : GraphEdge) : Bool :=
  match dist e.source, dist e.target with
  | some du, some dv => decide (du ≠ ⊤) && decide (du + (wOf e : WithTop Int) < dv)
  | _, _ => false

/-- Loop state of `runBellmanFord`. -/
structure BfSt where
  tr : TraceSt
  dist : String → Option (WithTop Int)
  updated : Bool

/-- One edge of a Bellman-Ford relaxation pass (iteration index `i` is only
used in the step description): emit the "Relaxing edge" step, then relax and
emit the "Distance updated" step if the test fires. -/
def bfRelaxEdge (g : GraphData) (i : Nat) (st : BfSt) (e : GraphEdge) : BfSt :=
  let lu := getNodeLabel g e.source
  let lv := getNodeLabel g e.target
  let j := i + 1
  let st1 : BfSt :=
    { st with
      tr := pushStep g st.tr "Relaxing edge" 4
        { edgeUpdates := [{ id := some e.id, isActive := some true }]
          description := some s!"Iteration {j}: Checking edge {lu} -> {lv}"
          matrix := some (distSnapshot g st.dist) } }
  if bfRelaxable st.dist e then
    let newv := (st.dist e.source).getD ⊤ + (wOf e : WithTop Int)
    let dist' := fun x => if x = e.target then some newv else st.dist x
    let nv := numStr newv
    { st1 with
      dist := dist'
      updated := true
      tr := pushStep g st1.tr "Distance updated" 6
        { nodeUpdates := [{ id := e.target, distance := some newv }]
          description := some s!"Updated distance to {lv}: {nv}"
          matrix := some (distSnapshot g dist') } }
  else st1

/-- One full relaxation pass over the edge list, followed by the
"Matrix State" step. -/
def bfPass (g : GraphData) (i : Nat) (st : BfSt) : BfSt :=
  let st' := g.edges.foldl (bfRelaxEdge g i) { st with updated := false }
  { st' with
    tr := pushStep g st'.tr "Matrix State" 7
      { matrix := some (distSnapshot g st'.dist) } }

/-- The outer `for (let i = 0; i < |V| - 1; i++)` loop with its early break
when a pass makes no update. -/
def bfLoop (g : GraphData) : Nat → Nat → BfSt → BfSt
  | 0, _, st => st
  | c + 1, i, st =>
    let st' := bfPass g i st
    if st'.updated then bfLoop g c (i + 1) st' else st'

/-- The initial Bellman-Ford distance map: `Infinity` for every node, then
`0` for the start key (set even when the start id is not a node). -/
def bfInitDist (g : GraphData) (startNodeId : String) :
    String → Option (WithTop Int) := fun v =>
  if v = startNodeId then some ((0 : Int) : WithTop Int)
  else if g.nodes.any (fun n => n.id = v) then some ⊤ else none

/-- Initial Bellman-Ford state including the "Initialize Bellman-Ford"
step. -/
def bfInitSt (g : GraphData) (startNodeId : String) : BfSt :=
  let dist0 := bfInitDist g startNodeId
  let lbl := getNodeLabel g startNodeId
  { tr := pushStep g {} "Initialize Bellman-Ford" 2
      { nodeUpdates := g.nodes.map (fun n =>
          { id := n.id, distance := some ((dist0 n.id).getD ⊤) })
        description := some s!"Initializing distances. Start node {lbl} is 0."
        matrix := some (distSnapshot g dist0) }
    dist := dist0
    updated := false }

/-- The state after the relaxation passes. -/
def bfFinalSt (g : GraphData) (startNodeId : String) : BfSt :=
  bfLoop g (g.nodes.length - 1) 0 (bfInitSt g startNodeId)

/-- `runBellmanFord`: after the passes, scan the edge list once more; on the
first still-relaxable edge emit the terminal "negative cycle" step and
return, otherwise emit the completion step. -/
def runBellmanFord (g : GraphData) (startNodeId : String) : AlgorithmExecution :=
  let stL := bfFinalSt g startNodeId
  match g.edges.find? (bfRelaxable stL.dist) with
  | some e =>
    createDefaultExecution (pushStep g stL.tr "Negative cycle detected" 9
      { nodeUpdates := [{ id := e.target, state := some NState.error },
                        { id := e.source, state := some NState.error }]
        edgeUpdates := [{ id := some e.id, isError := some true }]
        description := some
          "Negative weight cycle detected! Algorithm cannot find shortest paths."
        matrix := some (distSnapshot g stL.dist) })
  | none =>
    createDefaultExecution (pushStep g stL.tr "Bellman-Ford Complete" 10
      { description := some "Algorithm finished. Final distances calculated."
        matrix := some (distSnapshot g stL.dist) })

/-! ### Directed walks, cycles and reachability, for the negative-cycle
claim -/

/-- Every edge references existing nodes (the GraphData validity invariant of
the data model). -/
def ValidGraph (g : GraphData) : Prop :=
  ∀ e ∈ g.edges, e.source ∈ nodeIds g ∧ e.target ∈ nodeIds g

/-- `chainFrom g u es`: `es` is a directed walk of edges of `g` starting at
`u`, each edge leaving the node the previous one entered. -/
def chainFrom (g : GraphData) : String → List GraphEdge → Prop
  | _, [] => True
  | u, e :: es => e ∈ g.edges ∧ e.source = u ∧ chainFrom g e.target es

/-- The end node of a walk starting at `u`. -/
def walkEnd : String → List GraphEdge → String
  | u, [] => u
  | _, e :: es => walkEnd e.target es

/-- Total weight of a walk, with the engine's `weight || 1` default. -/
def walkWeight : List GraphEdge → Int
  | [] => 0
  | e :: es => wOf e + walkWeight es

/-- Directed reachability along edges (`source` to `target`). -/
inductive Reaches (g : GraphData) : String → String → Prop
  | refl (a : String) : Reaches g a a
  | tail {a b : String} (e : GraphEdge) :
      Reaches g a b → e ∈ g.edges → e.source = b → Reaches g a e.target

/-! ### Floyd-Warshall (`runFloydWarshall`)

The distance matrix is initialised symmetrically: for `u ≠ v` the first edge
joining `u` and `v` in either direction supplies the weight.  All loops
range over the node id list, so the embedding is a total function on pairs
of ids. -/

/-- The initial Floyd-Warshall matrix. -/
def fwInitDist (g : GraphData) : String → String → WithTop Int := fun u v =>
  if u = v then ((0 : Int) : WithTop Int)
  else
    match g.edges.find? (fun e =>
        (e.source = u && e.target = v) || (e.target = u && e.source = v)) with
    | some e => ((wOf e : Int) : WithTop Int)
    | none => ⊤

/-- `JSON.parse(JSON.stringify(dist))` rendered over the node keys. -/
def fwSnapshot (g : GraphData) (d : String → String → WithTop Int) : MatrixSnap :=
  MatrixSnap.nested ((nodeIds g).map (fun u =>
    (u, (nodeIds g).map (fun v => (v, d u v)))))

/-- Loop state of `runFloydWarshall`. -/
structure FwSt where
  tr : TraceSt
  dist : String → String → WithTop Int

/-- Innermost `j` iteration: relax `dist[i][j]` through `k`, emitting an
"Update shortest path" step on an actual improvement. -/
def fwInnerJ (g : GraphData) (k i : String) (st : FwSt) (j : String) : FwSt :=
  if st.dist i k + st.dist k j < st.dist i j then
    let dist' := fun a b =>
      if a = i ∧ b = j then st.dist i k + st.dist k j else st.dist a b
    let li := getNodeLabel g i
    let lj := getNodeLabel g j
    let lk := getNodeLabel g k
    { st with
      dist := dist'
      tr := pushStep g st.tr "Update shortest path" 2
        { matrix := some (fwSnapshot g dist')
          description := some s!"Updated shortest path: {li} → {lj} via {lk}" } }
  else st

/-- Middle `i` iteration. -/
def fwInnerI (g : GraphData) (k : String) (st : FwSt) (i : String) : FwSt :=
  (nodeIds g).foldl (fwInnerJ g k i) st

/-- Outer `k` iteration, closing with the per-`k` "Matrix State" step. -/
def fwOuterK (g : GraphData) (st : FwSt) (k : String) : FwSt :=
  let st' := (nodeIds g).foldl (fwInnerI g k) st
  let lk := getNodeLabel g k
  { st' with
    tr := pushStep g st'.tr "Matrix State" 3
      { matrix := some (fwSnapshot g st'.dist)
        description := some s!"Matrix after considering {lk} as intermediate." } }

/-- `runFloydWarshall`. -/
def runFloydWarshall (g : GraphData) : AlgorithmExecution :=
  let d0 := fwInitDist g
  let st0 : FwSt :=
    { tr := pushStep g {} "Initialize distance matrix" 1
        { matrix := some (fwSnapshot g d0)
          description := some "Initialized distance matrix for all node pairs." }
      dist := d0 }
  let st1 := (nodeIds g).foldl (fwOuterK g) st0
  createDefaultExecution (pushStep g st1.tr "Floyd-Warshall Complete" 4
    { matrix := some (fwSnapshot g st1.dist)
      description := some "Algorithm finished. All-pairs shortest paths calculated." })

/-- The final Floyd-Warshall distance matrix of a run. -/
def fwFinal (g : GraphData) : String → String → WithTop Int :=
  ((nodeIds g).foldl (fwOuterK g)
    { tr := pushStep g {} "Initialize distance matrix" 1
        { matrix := some (fwSnapshot g (fwInitDist g))
          description := some "Initialized distance matrix for all node pairs." }
      dist := fwInitDist g }).dist

/-! ### Prim (`runPrims`) -/

/-- The `A-B(w)` rendering used for the `array` snapshots of both MST
algorithms. -/
def edgeStr (g : GraphData) (e : GraphEdge) : String :=
  let ls := getNodeLabel g e.source
  let lt := getNodeLabel g e.target
  let w := wOf e
  s!"{ls}-{lt}({w})"

/-- `addEdges`: append every edge incident to `nodeId` to the frontier. -/
def primAddEdges (g : GraphData) (nodeId : String) (pq : List GraphEdge) :
    List GraphEdge :=
  pq ++ g.edges.filter (fun e => e.source = nodeId || e.target = nodeId)

/-- Loop state of `runPrims`. -/
structure PrimSt where
  tr : TraceSt
  visited : List String
  pq : List GraphEdge
  mst : List GraphEdge

/-- The `while (pq.length > 0 && mstEdges.length < |V| - 1)` loop of
`runPrims`, with fuel (the comparison with `|V| - 1` is over the
integers, as in JavaScript). -/
def primLoop (g : GraphData) : Nat → PrimSt → PrimSt
  | 0, st => st
  | fuel + 1, st =>
    if st.pq.length > 0 ∧ (st.mst.length : Int) < (g.nodes.length : Int) - 1 then
      match sortByLt (fun a b => wOf a < wOf b) st.pq with
      | [] => st
      | edge :: rest =>
        let ls := getNodeLabel g edge.source
        let lt := getNodeLabel g edge.target
        let w := wOf edge
        let st1 : PrimSt :=
          { st with
            pq := rest
            tr := pushStep g st.tr "Select minimum edge" 8
              { edgeUpdates := [{ id := some edge.id, isActive := some true }]
                description := some s!"Selecting edge ({ls}-{lt}) with weight {w}"
                array := some (rest.map (edgeStr g))
                list := some (st.visited.map (getNodeLabel g)) } }
        if edge.source ∈ st.visited ∧ edge.target ∈ st.visited then
          primLoop g fuel
            { st1 with
              tr := pushStep g st1.tr "Skip edge (creates cycle)" 11
                { edgeUpdates := [{ id := some edge.id, isActive := some false,
                                    isError := some true }]
                  description := some "Both nodes already in MST, skipping edge."
                  array := some (rest.map (edgeStr g))
                  list := some (st.visited.map (getNodeLabel g)) } }
        else
          let newNodeId := if edge.source ∈ st.visited then edge.target else edge.source
          let visited' := setAdd st.visited newNodeId
          let mst' := st.mst ++ [edge]
          let lbl := getNodeLabel g newNodeId
          let st2 : PrimSt :=
            { st1 with
              visited := visited'
              mst := mst'
              tr := pushStep g st1.tr "Add edge to MST" 13
                { nodeUpdates := [{ id := newNodeId, state := some NState.visited }]
                  edgeUpdates := [{ id := some edge.id, inTree := some true }]
                  description := some s!"Adding edge to MST and visiting node {lbl}"
                  array := some (rest.map (edgeStr g))
                  list := some (visited'.map (getNodeLabel g)) } }
          primLoop g fuel { st2 with pq := primAddEdges g newNodeId st2.pq }
    else st

/-- `runPrims`. -/
def runPrims (g : GraphData) (startNodeId : String) (fuel : Nat) :
    AlgorithmExecution :=
  let lbl := getNodeLabel g startNodeId
  let tr0 := pushStep g {} "Initialize Prim's" 5
    { nodeUpdates := [{ id := startNodeId, state := some NState.visited }]
      description := some s!"Starting Prim's algorithm from node {lbl}"
      list := some [lbl] }
  let pq0 := primAddEdges g startNodeId []
  let tr1 := pushStep g tr0 "Add initial edges to PQ" 6
    { description := some s!"Adding edges from {lbl} to the priority queue."
      array := some (pq0.map (edgeStr g)) }
  let st1 := primLoop g fuel
    { tr := tr1, visited := [startNodeId], pq := pq0, mst := [] }
  createDefaultExecution (pushStep g st1.tr "Prim's Complete" 15
    { description := some "Minimum Spanning Tree construction complete."
      array := some (st1.pq.map (edgeStr g))
      list := some (st1.visited.map (getNodeLabel g)) })

/-! ### Kruskal (`runKruskals`)

The recursive `find` is embedded with fuel and returns `none` when the fuel
runs out or a parent key is missing; the run is `Option`-valued and fails if
any `find` does.  The internal fuel `|E| + |V| + 1` is proved sufficient for
valid inputs by the termination theorem. -/

/-- The recursive `find` of the union-find, with fuel. -/
def kFind (p : String → Option String) : Nat → String → Option String
  | 0, _ => none
  | fuel + 1, i =>
    match p i with
    | none => none
    | some q => if q = i then some i else kFind p fuel q

/-- `union`: attach the root of `j` under the root of `i` (no-op when the
roots coincide). -/
def kUnion (p : String → Option String) (fuel : Nat) (i j : String) :
    Option (String → Option String) :=
  match kFind p fuel i, kFind p fuel j with
  | some rootI, some rootJ =>
    some (if rootI ≠ rootJ then (fun x => if x = rootJ then some rootI else p x) else p)
  | _, _ => none

/-- Loop state of `runKruskals`. -/
structure KrSt where
  tr : TraceSt
  parent : String → Option String
  mst : List GraphEdge

/-- Processing of one sorted edge in `runKruskals`: the "Consider next edge"
step, then the union-find queries and the "Add edge to MST" or
"Skip edge (creates cycle)" step. -/
def krStep (g : GraphData) (sorted : List GraphEdge) (fuel : Nat) (st : KrSt)
    (e : GraphEdge) : Option KrSt :=
  let ls := getNodeLabel g e.source
  let lt := getNodeLabel g e.target
  let w := wOf e
  let allNodes := g.nodes.map (fun n => getNodeLabel g n.id)
  let st1 : KrSt :=
    { st with
      tr := pushStep g st.tr "Consider next edge" 5
        { edgeUpdates := [{ id := some e.id, isActive := some true }]
          description := some s!"Considering edge ({ls}-{lt}) with weight {w}"
          array := some (sorted.map (edgeStr g))
          list := some allNodes } }
  match kFind st.parent fuel e.source, kFind st.parent fuel e.target with
  | some rootU, some rootV =>
    if rootU ≠ rootV then
      match kUnion st.parent fuel e.source e.target with
      | some p' =>
        some
          { tr := pushStep g st1.tr "Add edge to MST" 8
              { nodeUpdates := [{ id := e.source, state := some NState.visited },
                                { id := e.target, state := some NState.visited }]
                edgeUpdates := [{ id := some e.id, inTree := some true }]
                description := some "Nodes are in different sets. Adding edge to MST."
                array := some (sorted.map (edgeStr g))
                list := some allNodes }
            parent := p'
            mst := st.mst ++ [e] }
      | none => none
    else
      some
        { st1 with
          tr := pushStep g st1.tr "Skip edge (creates cycle)" 7
            { edgeUpdates := [{ id := some e.id, isError := some true,
                                isActive := some false }]
              description := some "Nodes are in the same set. Skipping to avoid a cycle."
              array := some (sorted.map (edgeStr g))
              list := some allNodes } }
  | _, _ => none

/-- The `for(const edge of sortedEdges)` loop with its early break once
`|V| - 1` edges are accepted (an integer comparison, as in JavaScript). -/
def krGo (g : GraphData) (sorted : List GraphEdge) (fuel : Nat) :
    List GraphEdge → KrSt → Option KrSt
  | [], st => some st
  | e :: rest, st =>
    match krStep g sorted fuel st e with
    | none => none
    | some st' =>
      if (st'.mst.length : Int) = (g.nodes.length : Int) - 1 then some st'
      else krGo g sorted fuel rest st'

/-- The internal `find` fuel used by `runKruskals`. -/
def krFuel (g : GraphData) : Nat := g.edges.length + g.nodes.length + 1

/-- The initial union-find map: every node its own parent. -/
def krInitParent (g : GraphData) : String → Option String := fun i =>
  if g.nodes.any (fun n => n.id = i) then some i else none

/-- `runKruskals`. -/
def runKruskals (g : GraphData) : Option AlgorithmExecution :=
  let sorted := sortByLt (fun a b => wOf a < wOf b) g.edges
  let allNodes := g.nodes.map (fun n => getNodeLabel g n.id)
  let tr0 := pushStep g {} "Initialize Kruskal's" 3
    { description := some "Sorting all edges by weight."
      array := some (sorted.map (edgeStr g))
      list := some allNodes }
  (krGo g sorted (krFuel g) sorted
      { tr := tr0, parent := krInitParent g, mst := [] }).map (fun st =>
    createDefaultExecution (pushStep g st.tr "Kruskal's Complete" 10
      { description := some "Minimum Spanning Tree construction complete."
        array := some (sorted.map (edgeStr g))
        list := some allNodes }))

/-- The edge ids marked `inTree` across a run's steps. -/
def inTreeEdgeIds (ex : AlgorithmExecution) : List (Option String) :=
  ex.steps.flatMap (fun s =>
    (s.edgeUpdates.filter (fun u => u.inTree = some true)).map (fun u => u.id))

/-! ### Ford-Fulkerson (`runFordFulkerson`, Edmonds-Karp)

The residual capacity matrix is a total function on pairs of ids (the
source only ever reads and writes node keys).  The augmenting-path BFS and
the two path walks are embedded with fuel; the internal BFS fuel
`|V| + 2` covers every reachable state because each node is enqueued at
most once plus the initial source entry. -/

/-- `{...capacity}` rendered over the node keys. -/
def capSnapshot (g : GraphData) (cap : String → String → Int) : MatrixSnap :=
  MatrixSnap.nested ((nodeIds g).map (fun u =>
    (u, (nodeIds g).map (fun v => (v, ((cap u v : Int) : WithTop Int))))))

/-- The inner `for (const v of nodeIds)` scan of the Ford-Fulkerson BFS,
returning early when the sink is enqueued. -/
def ffScan (cap : String → String → Int) (sinkId u : String) :
    List String → List String → List String → (String → Option String) →
    List String × List String × (String → Option String) × Bool
  | [], visited, queue, parent => (visited, queue, parent, false)
  | v :: vs, visited, queue, parent =>
    if v ∉ visited ∧ cap u v > 0 then
      let queue' := queue ++ [v]
      let parent' := fun x => if x = v then some u else parent x
      let visited' := setAdd visited v
      if v = sinkId then (visited', queue', parent', true)
      else ffScan cap sinkId u vs visited' queue' parent'
    else ffScan cap sinkId u vs visited queue parent

/-- The `while (queue.length > 0)` loop of the Ford-Fulkerson BFS. -/
def ffBfsLoop (cap : String → String → Int) (sinkId : String)
    (ids : List String) :
    Nat → List String → List String → (String → Option String) →
    (String → Option String) × Bool
  | 0, _, _, parent => (parent, false)
  | fuel + 1, queue, visited, parent =>
    match queue with
    | [] => (parent, false)
    | u :: rest =>
      match ffScan cap sinkId u ids visited rest parent with
      | (visited', queue', parent', found) =>
        if found then (parent', true)
        else ffBfsLoop cap sinkId ids fuel queue' visited' parent'

/-- One `bfs()` call: fresh `visited`, the queue holding the source, and
`parent[sourceId] = null` on the persistent parent map. -/
def ffBfs (g : GraphData) (sourceId sinkId : String)
    (cap : String → String → Int) (parent : String → Option String) :
    (String → Option String) × Bool :=
  ffBfsLoop cap sinkId (nodeIds g) (g.nodes.length + 2) [sourceId] []
    (fun x => if x = sourceId then none else parent x)

/-- First path walk: the bottleneck (minimum residual capacity) from the
sink back to the source, starting from `Infinity`. -/
def ffBottleneck (cap : String → String → Int) (parent : String → Option String)
    (sourceId : String) : Nat → String → WithTop Int → WithTop Int
  | 0, _, acc => acc
  | fuel + 1, v, acc =>
    if v = sourceId then acc
    else
      match parent v with
      | some u => ffBottleneck cap parent sourceId fuel u (min acc ((cap u v : Int) : WithTop Int))
      | none => acc

/-- Second path walk: subtract the bottleneck from each forward edge, add it
to the reverse edge, and collect the path (built front-first as by
`unshift`). -/
def ffAug (f : Int) (sourceId : String) (parent : String → Option String) :
    Nat → String → (String → String → Int) → List String →
    (String → String → Int) × List String
  | 0, _, cap, path => (cap, path)
  | fuel + 1, v, cap, path =>
    if v = sourceId then (cap, path)
    else
      match parent v with
      | some u =>
        let c1 := fun a b => if a = u ∧ b = v then cap u v - f else cap a b
        let c2 := fun a b => if a = v ∧ b = u then c1 v u + f else c1 a b
        ffAug f sourceId parent fuel u c2 (v :: path)
      | none => (cap, path)

/-- Loop state of `runFordFulkerson`. -/
structure FfSt where
  tr : TraceSt
  cap : String → String → Int
  parent : String → Option String
  maxFlow : WithTop Int

/-- The `while (bfs())` loop of `runFordFulkerson`, with fuel.  The
bottleneck of a found path is always finite; `0` is an arbitrary default for
the unreachable `⊤` case of `Option.getD`. -/
def ffLoop (g : GraphData) (sourceId sinkId : String) : Nat → FfSt → FfSt
  | 0, st => st
  | fuel + 1, st =>
    match ffBfs g sourceId sinkId st.cap st.parent with
    | (parent', found) =>
      if found then
        let pathFlow := ffBottleneck st.cap parent' sourceId
          (g.nodes.length + 2) sinkId ⊤
        let fI : Int := (pathFlow : WithTop Int).untop' 0
        match ffAug fI sourceId parent' (g.nodes.length + 2) sinkId st.cap [] with
        | (cap', pathTail) =>
          let path := sourceId :: pathTail
          let pathStr := String.intercalate " → " (path.map (getNodeLabel g))
          let flowStr := numStr pathFlow
          ffLoop g sourceId sinkId fuel
            { tr := pushStep g st.tr "Augment path" 2
                { description := some s!"Augmented path: {pathStr} (flow +{flowStr})"
                  matrix := some (capSnapshot g cap')
                  list := some path }
              cap := cap'
              parent := parent'
              maxFlow := st.maxFlow + (fI : WithTop Int) }
      else { st with parent := parent' }

/-- The initial residual capacity matrix: `0` everywhere, then each edge's
`weight || 1` at its `source`/`target` key (later edges overwrite). -/
def ffInitCap (g : GraphData) : String → String → Int :=
  g.edges.foldl
    (fun c e => fun a b => if a = e.source ∧ b = e.target then wOf e else c a b)
    (fun _ _ => 0)

/-- `runFordFulkerson`. -/
def runFordFulkerson (g : GraphData) (sourceId sinkId : String) (fuel : Nat) :
    AlgorithmExecution :=
  let cap0 := ffInitCap g
  let ls := getNodeLabel g sourceId
  let lt := getNodeLabel g sinkId
  let tr0 := pushStep g {} "Initialize Ford-Fulkerson" 1
    { description := some s!"Finding max flow from {ls} to {lt}"
      matrix := some (capSnapshot g cap0) }
  let st1 := ffLoop g sourceId sinkId fuel
    { tr := tr0, cap := cap0, parent := fun _ => none, maxFlow := ((0 : Int) : WithTop Int) }
  let flowStr := numStr st1.maxFlow
  createDefaultExecution (pushStep g st1.tr "Ford-Fulkerson Complete" 3
    { description := some s!"Algorithm finished. Max flow = {flowStr}"
      matrix := some (capSnapshot g st1.cap)
      result := some [flowStr] })

/-! ### A* (`runAStar`)

The Euclidean heuristic of the source computes `Math.sqrt` over
floating-point coordinates, which has no exact integral embedding; `runAStar`
is therefore parameterised by an integer-valued heuristic `h`.  When either
node lacks coordinates the source heuristic returns `0`, captured by the
instantiation `h = fun _ => 0` used for coordinate-free graphs. -/

/-- `Number.prototype.toFixed(2)` for the integral values the engine
prints. -/
def toFixed2 (d : WithTop Int) : String :=
  Option.elim (α := Int) d "Infinity" (fun x => toString x ++ ".00")

/-- The JavaScript comparison `x < y` where either operand may be a missing
key (`undefined`): any comparison involving `NaN` is false. -/
def jsLtOpt (x y : Option (WithTop Int)) : Bool :=
  match x, y with
  | some a, some b => decide (a < b)
  | _, _ => false

/-- `{gScore: {...gScore}, fScore: {...fScore}}` over the node keys. -/
def scoreSnapshot (g : GraphData) (gS fS : String → Option (WithTop Int)) :
    MatrixSnap :=
  MatrixSnap.scores (g.nodes.map (fun n => (n.id, (gS n.id).getD ⊤)))
    (g.nodes.map (fun n => (n.id, (fS n.id).getD ⊤)))

/-- Loop state of `runAStar`. -/
structure AstarSt where
  tr : TraceSt
  openSet : List String
  cameFrom : String → Option String
  gScore : String → Option (WithTop Int)
  fScore : String → Option (WithTop Int)

/-- The path reconstruction `while (cameFrom[current])` walk (a missing key
or the falsy empty-string id stops it), building the path by `unshift`. -/
def astarPath (cameFrom : String → Option String) :
    Nat → String → List String → List String
  | 0, _, path => path
  | fuel + 1, current, path =>
    match cameFrom current with
    | some u => if u = "" then path else astarPath cameFrom fuel u (u :: path)
    | none => path

/-- One neighbor edge of the A* scan from `currentId`. -/
def astarScanStep (g : GraphData) (h : String → Int) (currentId : String)
    (st : AstarSt) (e : GraphEdge) : AstarSt :=
  let neighborId := e.target
  let lbl := getNodeLabel g neighborId
  let tentative := (st.gScore currentId).map (fun d => d + (wOf e : WithTop Int))
  let st1 : AstarSt :=
    { st with
      tr := pushStep g st.tr "Check neighbor" 11
        { edgeUpdates := [{ id := some e.id, isActive := some true }]
          description := some s!"Checking neighbor {lbl}"
          matrix := some (scoreSnapshot g st.gScore st.fScore) } }
  if jsLtOpt tentative (st.gScore neighborId) then
    let gv := (tentative.getD ⊤)
    let fv := gv + ((h neighborId : Int) : WithTop Int)
    let cameFrom' := fun x => if x = neighborId then some currentId else st.cameFrom x
    let gScore' := fun x => if x = neighborId then some gv else st.gScore x
    let fScore' := fun x => if x = neighborId then some fv else st.fScore x
    let openSet' := if neighborId ∈ st1.openSet then st1.openSet
      else st1.openSet ++ [neighborId]
    let gs := toFixed2 gv
    let fs := toFixed2 fv
    { st1 with
      cameFrom := cameFrom'
      gScore := gScore'
      fScore := fScore'
      openSet := openSet'
      tr := pushStep g st1.tr "Update neighbor scores" 15
        { nodeUpdates := [{ id := neighborId, distance := some gv,
                            state := some NState.current }]
          description := some s!"Updating {lbl}: gScore={gs}, fScore={fs}"
          matrix := some (scoreSnapshot g gScore' fScore') } }
  else st1

/-- The `while (openSet.length > 0)` loop of `runAStar`, with fuel; returns
the final trace buffer (the loop may return out of the middle on the
path-found step). -/
def astarLoop (g : GraphData) (h : String → Int) (endNodeId : String) :
    Nat → AstarSt → TraceSt
  | 0, st => st.tr
  | fuel + 1, st =>
    match sortByLt (fun a b => jsLtOpt (st.fScore a) (st.fScore b)) st.openSet with
    | [] =>
      (pushStep g st.tr "A* Complete - No Path" 18
        { description := some "Algorithm finished: no path found to the destination."
          queue := some []
          matrix := some (scoreSnapshot g st.gScore st.fScore) })
    | currentId :: rest =>
      let lbl := getNodeLabel g currentId
      let fstr := toFixed2 ((st.fScore currentId).getD ⊤)
      let st1 : AstarSt :=
        { st with
          openSet := rest
          tr := pushStep g st.tr "Select node from open set" 6
            { nodeUpdates := [{ id := currentId, state := some NState.current }]
              description := some s!"Selecting {lbl} (fScore: {fstr})"
              queue := some (rest.map (getNodeLabel g))
              matrix := some (scoreSnapshot g st.gScore st.fScore) } }
      let st2 : AstarSt :=
        { st1 with
          tr := pushStep g st1.tr "Queue State" 2
            { queue := some (rest.map (getNodeLabel g))
              matrix := some (scoreSnapshot g st1.gScore st1.fScore) } }
      if currentId = endNodeId then
        let path := astarPath st2.cameFrom (fuel + 1) currentId [currentId]
        let cost := toFixed2 ((st2.gScore endNodeId).getD ⊤)
        pushStep g st2.tr "Path found" 8
          { nodeUpdates := path.map (fun i => { id := i, state := some NState.visited })
            edgeUpdates := (path.zip path.tail).map (fun p =>
              { source := some p.1, target := some p.2, isActive := some true })
            description := some s!"Path found with total cost {cost}"
            result := some (path.map (getNodeLabel g))
            matrix := some (scoreSnapshot g st2.gScore st2.fScore) }
      else
        let st3 := (g.edges.filter (fun e => e.source = currentId)).foldl
          (astarScanStep g h currentId) st2
        astarLoop g h endNodeId fuel st3

/-- `runAStar`, parameterised by the heuristic. -/
def runAStar (g : GraphData) (startNodeId endNodeId : String)
    (h : String → Int) (fuel : Nat) : AlgorithmExecution :=
  let gScore0 : String → Option (WithTop Int) := fun v =>
    if v = startNodeId then some ((0 : Int) : WithTop Int)
    else if g.nodes.any (fun n => n.id = v) then some ⊤ else none
  let fScore0 : String → Option (WithTop Int) := fun v =>
    if v = startNodeId then some ((h startNodeId : Int) : WithTop Int)
    else if g.nodes.any (fun n => n.id = v) then some ⊤ else none
  let ls := getNodeLabel g startNodeId
  let le := getNodeLabel g endNodeId
  let st0 : AstarSt :=
    { tr := pushStep g {} "Initialize A*" 3
        { nodeUpdates := g.nodes.map (fun n =>
            { id := n.id
              distance := some ((gScore0 n.id).getD ⊤)
              state := some (if n.id = startNodeId then NState.current else NState.default) })
          description := some s!"Starting A* from {ls} to {le}"
          queue := some ([startNodeId].map (getNodeLabel g))
          matrix := some (scoreSnapshot g gScore0 fScore0) }
      openSet := [startNodeId]
      cameFrom := fun _ => none
      gScore := gScore0
      fScore := fScore0 }
  createDefaultExecution (astarLoop g h endNodeId fuel st0)

/-! ### Trace invariants for the Dijkstra snapshot claim -/

/-- A step that marks some node `visited` carries a matrix snapshot. -/
def visitHasMatrix (s : AlgorithmStep) : Prop :=
  (∃ u ∈ s.nodeUpdates, u.state = some NState.visited) → s.matrix.isSome

/-- A log entry recording a distance relaxation carries a matrix snapshot. -/
def relaxHasMatrix (en : OperationLogEntry) : Prop :=
  en.operation = "Update distance" → en.matrix.isSome

/-- Both snapshot invariants over a whole trace buffer. -/
def dijTraceOK (tr : TraceSt) : Prop :=
  (∀ s ∈ tr.steps, visitHasMatrix s) ∧ (∀ en ∈ tr.log, relaxHasMatrix en)

/-! ### Concrete example graphs -/

/-- Two nodes joined by the single directed edge `e1 : a → b`. -/
def gSingleEdge : GraphData :=
  { nodes := [{ id := "a", label := "A" }, { id := "b", label := "B" }]
    edges := [{ id := "e1", source := "a", target := "b" }] }

/-- Undirected-style triangle on `a`,`b`,`c`. -/
def gTriangle : GraphData :=
  { nodes := [{ id := "a", label := "A" }, { id := "b", label := "B" },
              { id := "c", label := "C" }]
    edges := [{ id := "e1", source := "a", target := "b" },
              { id := "e2", source := "a", target := "c" },
              { id := "e3", source := "b", target := "c" }] }

/-- The Dijkstra/test graph: `a→b` weight 1, `b→c` weight 2, `a→c` weight 5. -/
def gDij : GraphData :=
  { nodes := [{ id := "a", label := "A" }, { id := "b", label := "B" },
              { id := "c", label := "C" }]
    edges := [{ id := "e1", source := "a", target := "b", weight := some 1 },
              { id := "e2", source := "b", target := "c", weight := some 2 },
              { id := "e3", source := "a", target := "c", weight := some 5 }] }

/-- The negative-cycle test edges `a→b` weight −2 and `b→a` weight −1. -/
def bfE1 : GraphEdge := { id := "e1", source := "a", target := "b", weight := some (-2) }

/-- Second edge of the negative cycle. -/
def bfE2 : GraphEdge := { id := "e2", source := "b", target := "a", weight := some (-1) }

/-- The two-node negative-cycle graph of the spec's Bellman-Ford test. -/
def gBF : GraphData :=
  { nodes := [{ id := "a", label := "A" }, { id := "b", label := "B" }]
    edges := [bfE1, bfE2] }

/-- The Floyd-Warshall example graph: `a→b` 2, `b→c` 3, `a→c` 10. -/
def gFW : GraphData :=
  { nodes := [{ id := "a", label := "A" }, { id := "b", label := "B" },
              { id := "c", label := "C" }]
    edges := [{ id := "e1", source := "a", target := "b", weight := some 2 },
              { id := "e2", source := "b", target := "c", weight := some 3 },
              { id := "e3", source := "a", target := "c", weight := some 10 }] }

/-- The example graph plus an isolated node `d`. -/
def gFWiso : GraphData :=
  { nodes := gFW.nodes ++ [{ id := "d", label := "D" }]
    edges := gFW.edges }

/-- A two-node graph whose single edge has weight −1: symmetric
initialisation turns it into a negative cycle. -/
def gFWneg : GraphData :=
  { nodes := [{ id := "a", label := "A" }, { id := "b", label := "B" }]
    edges := [{ id := "e1", source := "a", target := "b", weight := some (-1) }] }

/-- Two nodes joined by parallel edges of weight 1 (`e1`) and weight 0
(`e2`): the `weight || 1` default makes both sort keys equal. -/
def gZW : GraphData :=
  { nodes := [{ id := "a", label := "A" }, { id := "b", label := "B" }]
    edges := [{ id := "e1", source := "a", target := "b", weight := some 1 },
              { id := "e2", source := "a", target := "b", weight := some 0 }] }

/-- The spec-side characterisation of the BFS enqueue condition: a neighbor is
taken exactly when it is unvisited and not already in the queue built so
far. -/
def bfsNewlyEnqueued (visited : List String) : List String → List String → List String
  | _, [] => []
  | queue, n :: ns =>
    if n ∉ visited ∧ n ∉ queue then n :: bfsNewlyEnqueued visited (queue ++ [n]) ns
    else bfsNewlyEnqueued visited queue ns

/-- Projection of a step to the data the neighbor-scan claims talk about. -/
def scanProj (s : AlgorithmStep) : String × List NodeUpdate × List EdgeUpdate :=
  (s.description, s.nodeUpdates, s.edgeUpdates)

lemma dijTraceOK_push (g : GraphData) (tr : TraceSt) (d : String) (c : Nat)
    (u : StepPayload)
    (h1 : (∃ x ∈ u.nodeUpdates, x.state = some NState.visited) → u.matrix.isSome)
    (h2 : d = "Update distance" → u.matrix.isSome)
    (h : dijTraceOK tr) : dijTraceOK (pushStep g tr d c u) := by
  obtain ⟨hs, hl⟩ := h
  constructor
  · intro s hsmem
    simp only [pushStep, addStep, List.mem_append, List.mem_singleton] at hsmem
    rcases hsmem with h' | h'
    · exact hs s h'
    · subst h'
      intro hex
      exact h1 hex
  · intro en henmem
    simp only [pushStep, addStep, List.mem_append, List.mem_singleton] at henmem
    rcases henmem with h' | h'
    · exact hl en h'
    · subst h'
      intro hop
      exact h2 hop

lemma pushStep_steps_extends (g : GraphData) (tr : TraceSt) (d : String) (c : Nat)
    (u : StepPayload) : tr.steps <+: (pushStep g tr d c u).steps :=
  ⟨_, rfl⟩

lemma dijScanStep_traceOK (g : GraphData) (c : String) (st : DijSt) (e : GraphEdge)
    (h : dijTraceOK st.tr) : dijTraceOK (dijScanStep g c st e).tr := by
  unfold dijScanStep
  dsimp only
  split
  · exact h
  · split
    · split
      · exact dijTraceOK_push _ _ _ _ _ (fun _ => rfl) (fun _ => rfl) h
      · exact h
    · exact h

lemma dijScanStep_steps_extends (g : GraphData) (c : String) (st : DijSt)
    (e : GraphEdge) : st.tr.steps <+: (dijScanStep g c st e).tr.steps := by
  unfold dijScanStep
  dsimp only
  split
  · exact List.prefix_refl _
  · split
    · split
      · exact pushStep_steps_extends ..
      · exact List.prefix_refl _
    · exact List.prefix_refl _

lemma dijScanFold_traceOK (g : GraphData) (c : String) :
    ∀ (es : List GraphEdge) (st : DijSt), dijTraceOK st.tr →
      dijTraceOK (es.foldl (dijScanStep g c) st).tr := by
  intro es
  induction es with
  | nil => intro st h; exact h
  | cons e es ih =>
    intro st h
    exact ih _ (dijScanStep_traceOK g c st e h)

lemma dijScanFold_steps_extends (g : GraphData) (c : String) :
    ∀ (es : List GraphEdge) (st : DijSt),
      st.tr.steps <+: (es.foldl (dijScanStep g c) st).tr.steps := by
  intro es
  induction es with
  | nil => intro st; exact List.prefix_refl _
  | cons e es ih =>
    intro st
    exact (dijScanStep_steps_extends g c st e).trans (ih _)

lemma dijLoop_traceOK (g : GraphData) :
    ∀ (fuel : Nat) (st : DijSt), dijTraceOK st.tr →
      dijTraceOK (dijLoop g fuel st).tr := by
  intro fuel
  induction fuel with
  | zero => intro st h; exact h
  | succ fuel ih =>
    intro st h
    unfold dijLoop
    dsimp only
    split
    · exact h
    · split
      · exact ih _ h
      · split
        · exact h
        · refine ih _ ?_
          refine dijTraceOK_push _ _ _ _ _ (fun _ => rfl) (fun _ => rfl) ?_
          refine dijScanFold_traceOK g _ _ _ ?_
          refine dijTraceOK_push _ _ _ _ _ (fun _ => rfl) ?_ h
          intro hfalse
          exact absurd hfalse (by decide)

lemma dijLoop_steps_extends (g : GraphData) :
    ∀ (fuel : Nat) (st : DijSt),
      st.tr.steps <+: (dijLoop g fuel st).tr.steps := by
  intro fuel
  induction fuel with
  | zero => intro st; exact List.prefix_refl _
  | succ fuel ih =>
    intro st
    unfold dijLoop
    dsimp only
    split
    · exact List.prefix_refl _
    · rename_i current rest heq
      split
      · exact ih ⟨st.tr, st.dist, st.visited, rest⟩
      · split
        · exact List.prefix_refl _
        · refine List.IsPrefix.trans ?_ (ih _)
          refine List.IsPrefix.trans ?_ (pushStep_steps_extends ..)
          refine List.IsPrefix.trans ?_ (dijScanFold_steps_extends ..)
          exact pushStep_steps_extends ..

lemma bfsScanStep_visited (g : GraphData) (c : String) (st : BfsSt) (n : String) :
    (bfsScanStep g c st n).visited = st.visited := by
  unfold bfsScanStep
  split <;> rfl

lemma bfsScanStep_pos (g : GraphData) (c : String) (st : BfsSt) (n : String)
    (h : n ∉ st.visited ∧ n ∉ st.queue) :
    (bfsScanStep g c st n).queue = st.queue ++ [n]
    ∧ (bfsScanStep g c st n).tr.steps.map scanProj
        = st.tr.steps.map scanProj
          ++ [(s!"Added {getNodeLabel g n} to queue",
               [{ id := n, state := some NState.current }],
               [{ source := some c, target := some n, isActive := some true }])] := by
  unfold bfsScanStep
  rw [if_pos h]
  exact ⟨rfl, by simp [pushStep, addStep, scanProj]⟩

lemma bfsScanStep_neg (g : GraphData) (c : String) (st : BfsSt) (n : String)
    (h : ¬ (n ∉ st.visited ∧ n ∉ st.queue)) :
    bfsScanStep g c st n = st := by
  unfold bfsScanStep
  rw [if_neg h]

lemma bfsScanNeighbors_characterisation (g : GraphData) (c : String) :
    ∀ (ns : List String) (st : BfsSt),
      ((ns.foldl (bfsScanStep g c) st).queue
          = st.queue ++ bfsNewlyEnqueued st.visited st.queue ns)
      ∧ ((ns.foldl (bfsScanStep g c) st).tr.steps.map scanProj
          = st.tr.steps.map scanProj
            ++ (bfsNewlyEnqueued st.visited st.queue ns).map (fun n =>
                (s!"Added {getNodeLabel g n} to queue",
                 [{ id := n, state := some NState.current }],
                 [{ source := some c, target := some n, isActive := some true }]))) := by
  intro ns
  induction ns with
  | nil => intro st; simp [bfsNewlyEnqueued]
  | cons n ns ih =>
    intro st
    rw [List.foldl_cons]
    obtain ⟨ih1, ih2⟩ := ih (bfsScanStep g c st n)
    rw [bfsScanStep_visited] at ih1 ih2
    by_cases h : n ∉ st.visited ∧ n ∉ st.queue
    · obtain ⟨hq, hs⟩ := bfsScanStep_pos g c st n h
      rw [hq] at ih1 ih2
      constructor
      · rw [ih1]
        simp only [bfsNewlyEnqueued, if_pos h]
        simp
      · rw [ih2, hs]
        simp only [bfsNewlyEnqueued, if_pos h]
        simp
    · rw [bfsScanStep_neg g c st n h] at ih1 ih2 ⊢
      constructor
      · rw [ih1]
        simp only [bfsNewlyEnqueued, if_neg h]
      · rw [ih2]
        simp only [bfsNewlyEnqueued, if_neg h]

lemma dfsScanStep_visited (g : GraphData) (c : String) (st : DfsSt) (n : String) :
    (dfsScanStep g c st n).visited = st.visited := by
  unfold dfsScanStep
  split <;> rfl

lemma dfsScanStep_pos (g : GraphData) (c : String) (st : DfsSt) (n : String)
    (h : n ∉ st.visited) :
    (dfsScanStep g c st n).stack = st.stack ++ [n]
    ∧ (dfsScanStep g c st n).tr.steps.map scanProj
        = st.tr.steps.map scanProj
          ++ [(s!"Added {getNodeLabel g n} to stack",
               [{ id := n, state := some NState.current }],
               [{ source := some c, target := some n, isActive := some true }])] := by
  unfold dfsScanStep
  rw [if_pos h]
  exact ⟨rfl, by simp [pushStep, addStep, scanProj]⟩

lemma dfsScanStep_neg (g : GraphData) (c : String) (st : DfsSt) (n : String)
    (h : ¬ n ∉ st.visited) :
    dfsScanStep g c st n = st := by
  unfold dfsScanStep
  rw [if_neg h]

lemma dfsScanNeighbors_characterisation (g : GraphData) (c : String) :
    ∀ (ns : List String) (st : DfsSt),
      ((ns.foldl (dfsScanStep g c) st).stack
          = st.stack ++ ns.filter (fun n => n ∉ st.visited))
      ∧ ((ns.foldl (dfsScanStep g c) st).tr.steps.map scanProj
          = st.tr.steps.map scanProj
            ++ (ns.filter (fun n => n ∉ st.visited)).map (fun n =>
                (s!"Added {getNodeLabel g n} to stack",
                 [{ id := n, state := some NState.current }],
                 [{ source := some c, target := some n, isActive := some true }]))) := by
  intro ns
  induction ns with
  | nil => intro st; simp
  | cons n ns ih =>
    intro st
    rw [List.foldl_cons]
    obtain ⟨ih1, ih2⟩ := ih (dfsScanStep g c st n)
    rw [dfsScanStep_visited] at ih1 ih2
    by_cases h : n ∉ st.visited
    · obtain ⟨hq, hs⟩ := dfsScanStep_pos g c st n h
      rw [hq] at ih1
      constructor
      · rw [ih1]
        simp [List.filter_cons, h]
      · rw [ih2, hs]
        simp [List.filter_cons, h]
    · rw [dfsScanStep_neg g c st n h] at ih1 ih2 ⊢
      constructor
      · rw [ih1]
        simp only [List.filter_cons]
        simp at h
        simp [h]
      · rw [ih2]
        simp only [List.filter_cons]
        simp at h
        simp [h]

/-- C5 counterexample: running DFS on the triangle from `a`, the trace
contains a "Push neighbor to stack" step for `b` made while `b` was already
on the stack — its recorded post-push stack snapshot is `["B", "B"]`.  This
refutes the claim that DFS pushes a neighbor only if it is not already
present on the stack. -/
theorem dfs_pushes_neighbor_already_on_stack :
    ∃ s ∈ (runDFS gTriangle "a" 10).steps,
      s.description = "Added B to stack" ∧ s.stack = some ["B", "B"] := by
  decide

/-- C5 (amended): in `runBFS`'s neighbor scan a neighbor is enqueued — with an
accompanying step marking it `current` and activating the connecting edge —
exactly when it is unvisited and not already present in the queue; in
`runDFS`'s neighbor scan a neighbor is pushed — with the analogous step —
exactly when it is unvisited, regardless of whether it is already on the
stack. -/
theorem scan_neighbors_enqueue_push_conditions :
    ∀ (g : GraphData) (c : String) (stB : BfsSt) (stD : DfsSt),
      ((bfsScanNeighbors g c stB).queue
          = stB.queue ++ bfsNewlyEnqueued stB.visited stB.queue (getNeighbors g c))
      ∧ ((bfsScanNeighbors g c stB).tr.steps.map scanProj
          = stB.tr.steps.map scanProj
            ++ (bfsNewlyEnqueued stB.visited stB.queue (getNeighbors g c)).map (fun n =>
                (s!"Added {getNodeLabel g n} to queue",
                 [{ id := n, state := some NState.current }],
                 [{ source := some c, target := some n, isActive := some true }])))
      ∧ ((dfsScanNeighbors g c stD).stack
          = stD.stack ++ (getNeighbors g c).filter (fun n => n ∉ stD.visited))
      ∧ ((dfsScanNeighbors g c stD).tr.steps.map scanProj
          = stD.tr.steps.map scanProj
            ++ ((getNeighbors g c).filter (fun n => n ∉ stD.visited)).map (fun n =>
                (s!"Added {getNodeLabel g n} to stack",
                 [{ id := n, state := some NState.current }],
                 [{ source := some c, target := some n, isActive := some true }]))) := by
  intro g c stB stD
  obtain ⟨h1, h2⟩ := bfsScanNeighbors_characterisation g c (getNeighbors g c) stB
  obtain ⟨h3, h4⟩ := dfsScanNeighbors_characterisation g c (getNeighbors g c) stD
  exact ⟨h1, h2, h3, h4⟩

/-- C3: running BFS on the single-edge graph from `a`, the enqueue step
declares the connecting edge active through an `edgeUpdates` entry carrying
only `source`/`target` (no `id`); replaying every step with the id-keyed
shallow merge therefore leaves `e1.isActive = false`, so the replay does not
reproduce the declared edge flags. -/
theorem bfs_replay_drops_declared_edge_activation :
    (∃ s ∈ (runBFS gSingleEdge "a" 10).steps,
        ({ source := some "a", target := some "b", isActive := some true } : EdgeUpdate)
          ∈ s.edgeUpdates)
    ∧ ((replaySteps gSingleEdge (runBFS gSingleEdge "a" 10).steps).edges.map
          (fun e => (e.id, e.isActive)) = [("e1", false)])
    ∧ ((runBFS gSingleEdge "a" 10).steps.getLast?.map (fun s => s.description)
          = some "Algorithm finished: all reachable nodes visited.") := by
  decide


lemma dijInit_traceOK (g : GraphData) (startNodeId : String) :
    dijTraceOK (dijInitSt g startNodeId).tr := by
  refine dijTraceOK_push _ _ _ _ _ ?_ (fun h => absurd h (by decide)) ?_
  · rintro ⟨x, hx, hstate⟩
    exfalso
    obtain ⟨n, _, rfl⟩ := List.mem_map.mp hx
    dsimp at hstate
    by_cases c : n.id = startNodeId <;> simp [c] at hstate
  · exact ⟨by intro s h; exact absurd h (by simp), by intro en h; exact absurd h (by simp)⟩

lemma dijInit_steps (g : GraphData) (startNodeId : String) :
    ∃ s0, (dijInitSt g startNodeId).tr.steps = [s0] ∧ s0.matrix = none :=
  ⟨_, rfl, rfl⟩

/-- C7 (amended): in every `runDijkstra` trace, every step marking a node
visited and every "Update distance" (relaxation) record carries a
distance-matrix snapshot; the initialization step, by contrast, is the first
step and carries no snapshot. -/
theorem dijkstra_snapshot_coverage (g : GraphData) (startNodeId : String) (fuel : Nat) :
    (∀ stp ∈ (runDijkstra g startNodeId fuel).steps,
        (∃ u ∈ stp.nodeUpdates, u.state = some NState.visited) → stp.matrix.isSome)
    ∧ (∀ en ∈ (runDijkstra g startNodeId fuel).operationLog,
        en.operation = "Update distance" → en.matrix.isSome)
    ∧ ((runDijkstra g startNodeId fuel).steps.head?.map (fun stp => stp.matrix)
        = some none) := by
  have hok : dijTraceOK (dijLoop g fuel (dijInitSt g startNodeId)).tr :=
    dijLoop_traceOK g fuel _ (dijInit_traceOK g startNodeId)
  refine ⟨?_, ?_, ?_⟩
  · intro stp hmem
    have h2 : dijTraceOK (pushStep g (dijLoop g fuel (dijInitSt g startNodeId)).tr
        "Dijkstra Complete" 14
        { description := some "Shortest path algorithm finished."
          queue := some (((dijLoop g fuel (dijInitSt g startNodeId)).pq).map
            (fun item => getNodeLabel g item.2))
          matrix := some (distSnapshot g (dijLoop g fuel (dijInitSt g startNodeId)).dist) }) :=
      dijTraceOK_push _ _ _ _ _ (fun _ => rfl) (fun _ => rfl) hok
    exact h2.1 stp hmem
  · intro en hmem
    have h2 : dijTraceOK (pushStep g (dijLoop g fuel (dijInitSt g startNodeId)).tr
        "Dijkstra Complete" 14
        { description := some "Shortest path algorithm finished."
          queue := some (((dijLoop g fuel (dijInitSt g startNodeId)).pq).map
            (fun item => getNodeLabel g item.2))
          matrix := some (distSnapshot g (dijLoop g fuel (dijInitSt g startNodeId)).dist) }) :=
      dijTraceOK_push _ _ _ _ _ (fun _ => rfl) (fun _ => rfl) hok
    exact h2.2 en hmem
  · obtain ⟨s0, hs0, hm0⟩ := dijInit_steps g startNodeId
    obtain ⟨t, ht⟩ := dijLoop_steps_extends g fuel (dijInitSt g startNodeId)
    show ((pushStep g (dijLoop g fuel (dijInitSt g startNodeId)).tr "Dijkstra Complete" 14 _).steps.head?.map
      (fun stp => stp.matrix) = some none)
    rw [pushStep, addStep]
    dsimp only
    rw [← ht, hs0]
    simp [hm0]


/-! ### Bellman-Ford: the negative-cycle claim -/

/-- `d'` is pointwise at most `d` on stored keys (keys are never removed). -/
def distLE (d' d : String → Option (WithTop Int)) : Prop :=
  ∀ v y, d v = some y → ∃ y', d' v = some y' ∧ y' ≤ y

lemma distLE_refl (d : String → Option (WithTop Int)) : distLE d d :=
  fun _ y hy => ⟨y, hy, le_refl y⟩

lemma distLE_trans {d1 d2 d3 : String → Option (WithTop Int)}
    (h21 : distLE d2 d1) (h32 : distLE d3 d2) : distLE d3 d1 := by
  intro v y hy
  obtain ⟨y2, h2, hle2⟩ := h21 v y hy
  obtain ⟨y3, h3, hle3⟩ := h32 v y2 h2
  exact ⟨y3, h3, hle3.trans hle2⟩

lemma bfRelaxable_true {dist : String → Option (WithTop Int)} {e : GraphEdge}
    (h : bfRelaxable dist e = true) :
    ∃ du dv, dist e.source = some du ∧ dist e.target = some dv
      ∧ du ≠ ⊤ ∧ du + (wOf e : WithTop Int) < dv := by
  unfold bfRelaxable at h
  cases hs : dist e.source with
  | none => rw [hs] at h; simp at h
  | some du =>
    cases ht : dist e.target with
    | none => rw [hs, ht] at h; simp at h
    | some dv =>
      rw [hs, ht] at h
      simp only [Bool.and_eq_true, decide_eq_true_eq] at h
      exact ⟨du, dv, rfl, rfl, h.1, h.2⟩

lemma bfRelaxEdge_isSome (g : GraphData) (i : Nat) (st : BfSt) (e : GraphEdge)
    (v : String) (h : (st.dist v).isSome) :
    ((bfRelaxEdge g i st e).dist v).isSome := by
  unfold bfRelaxEdge
  dsimp only
  split
  · dsimp only
    by_cases hv : v = e.target
    · simp [hv]
    · simpa [hv] using h
  · exact h

lemma bfRelaxEdge_distLE (g : GraphData) (i : Nat) (st : BfSt) (e : GraphEdge) :
    distLE (bfRelaxEdge g i st e).dist st.dist := by
  unfold bfRelaxEdge
  dsimp only
  split
  · rename_i hrel
    intro v y hy
    dsimp only
    by_cases hv : v = e.target
    · subst hv
      obtain ⟨du, dv, hdu, hdv, hne, hlt⟩ := bfRelaxable_true hrel
      rw [hdv] at hy
      have hdvy := Option.some.inj hy
      refine ⟨(st.dist e.source).getD ⊤ + (wOf e : WithTop Int), by simp, ?_⟩
      rw [hdu]
      simp only [Option.getD_some]
      exact le_of_lt (hdvy ▸ hlt)
    · exact ⟨y, by simpa [hv] using hy, le_refl y⟩
  · exact distLE_refl _

lemma bfFold_isSome (g : GraphData) (i : Nat) :
    ∀ (es : List GraphEdge) (st : BfSt) (v : String), (st.dist v).isSome →
      ((es.foldl (bfRelaxEdge g i) st).dist v).isSome := by
  intro es
  induction es with
  | nil => intro st v h; exact h
  | cons e es ih =>
    intro st v h
    exact ih _ v (bfRelaxEdge_isSome g i st e v h)

lemma bfFold_distLE (g : GraphData) (i : Nat) :
    ∀ (es : List GraphEdge) (st : BfSt),
      distLE ((es.foldl (bfRelaxEdge g i) st)).dist st.dist := by
  intro es
  induction es with
  | nil => intro st; exact distLE_refl _
  | cons e es ih =>
    intro st
    exact distLE_trans (bfRelaxEdge_distLE g i st e) (ih _)

lemma bfPass_dist (g : GraphData) (i : Nat) (st : BfSt) :
    (bfPass g i st).dist
      = ((g.edges.foldl (bfRelaxEdge g i) { st with updated := false })).dist := rfl

lemma bfPass_isSome (g : GraphData) (i : Nat) (st : BfSt) (v : String)
    (h : (st.dist v).isSome) : ((bfPass g i st).dist v).isSome := by
  rw [bfPass_dist]
  exact bfFold_isSome g i g.edges _ v h

lemma bfPass_distLE (g : GraphData) (i : Nat) (st : BfSt) :
    distLE (bfPass g i st).dist st.dist := by
  rw [bfPass_dist]
  exact bfFold_distLE g i g.edges _

lemma bfLoop_isSome (g : GraphData) :
    ∀ (c i : Nat) (st : BfSt) (v : String), (st.dist v).isSome →
      ((bfLoop g c i st).dist v).isSome := by
  intro c
  induction c with
  | zero => intro i st v h; exact h
  | succ c ih =>
    intro i st v h
    unfold bfLoop
    dsimp only
    split
    · exact ih _ _ v (bfPass_isSome g i st v h)
    · exact bfPass_isSome g i st v h

lemma bfLoop_distLE (g : GraphData) :
    ∀ (c i : Nat) (st : BfSt), distLE (bfLoop g c i st).dist st.dist := by
  intro c
  induction c with
  | zero => intro i st; exact distLE_refl _
  | succ c ih =>
    intro i st
    unfold bfLoop
    dsimp only
    split
    · exact distLE_trans (bfPass_distLE g i st) (ih _ _)
    · exact bfPass_distLE g i st

lemma bfInitDist_start (g : GraphData) (startNodeId : String) :
    bfInitDist g startNodeId startNodeId = some ((0 : Int) : WithTop Int) := by
  simp [bfInitDist]

lemma bfInitDist_node (g : GraphData) (startNodeId v : String)
    (h : v ∈ nodeIds g) : (bfInitDist g startNodeId v).isSome := by
  unfold bfInitDist
  obtain ⟨n, hn, hid⟩ := List.mem_map.mp h
  split
  · simp
  · rw [if_pos]
    · simp
    · exact List.any_eq_true.mpr ⟨n, hn, by simp [hid]⟩

lemma bfFinal_isSome (g : GraphData) (startNodeId v : String)
    (h : (bfInitDist g startNodeId v).isSome) :
    ((bfFinalSt g startNodeId).dist v).isSome :=
  bfLoop_isSome g _ 0 _ v h

lemma bfFinal_distLE (g : GraphData) (startNodeId : String) :
    distLE (bfFinalSt g startNodeId).dist (bfInitDist g startNodeId) :=
  bfLoop_distLE g _ 0 _

/-- At a Bellman-Ford fixpoint of a valid graph, no directed closed walk
reachable from the start node has negative total weight. -/
lemma bf_fixpoint_no_negcycle (g : GraphData) (startNodeId : String)
    (hvalid : ValidGraph g)
    (hfix : ∀ e ∈ g.edges, bfRelaxable (bfFinalSt g startNodeId).dist e = false)
    (v0 : String) (es : List GraphEdge) (hchain : chainFrom g v0 es)
    (hclosed : walkEnd v0 es = v0) (hreach : Reaches g startNodeId v0) :
    0 ≤ walkWeight es := by
  set d := (bfFinalSt g startNodeId).dist with hd
  have hkeys : ∀ v ∈ nodeIds g, (d v).isSome := fun v hv =>
    bfFinal_isSome g startNodeId v (bfInitDist_node g startNodeId v hv)
  have hstep : ∀ e ∈ g.edges, ∀ x : Int,
      d e.source = some ((x : Int) : WithTop Int) →
      ∃ y : Int, d e.target = some ((y : Int) : WithTop Int) ∧ y ≤ x + wOf e := by
    intro e he x hx
    have hf := hfix e he
    unfold bfRelaxable at hf
    obtain ⟨dv, hdv⟩ := Option.isSome_iff_exists.mp (hkeys e.target (hvalid e he).2)
    rw [hx, hdv] at hf
    simp only [Bool.and_eq_false_iff, decide_eq_false_iff_not, not_not] at hf
    rcases hf with hf | hf
    · exact absurd hf (WithTop.coe_ne_top)
    · have hle : dv ≤ ((x : Int) : WithTop Int) + ((wOf e : Int) : WithTop Int) :=
        not_lt.mp hf
      rw [← WithTop.coe_add] at hle
      rcases WithTop.le_coe_iff.mp hle with ⟨y, rfl, hy⟩
      exact ⟨y, hdv, hy⟩
  have hstartfin : ∃ x : Int, d startNodeId = some ((x : Int) : WithTop Int) := by
    obtain ⟨y, hy, hle⟩ := bfFinal_distLE g startNodeId startNodeId _
      (bfInitDist_start g startNodeId)
    rcases WithTop.le_coe_iff.mp hle with ⟨x, rfl, _⟩
    exact ⟨x, hy⟩
  have hreachfin : ∀ v, Reaches g startNodeId v →
      ∃ x : Int, d v = some ((x : Int) : WithTop Int) := by
    intro v hr
    induction hr with
    | refl => exact hstartfin
    | tail e hr he hsrc ih =>
      obtain ⟨x, hx⟩ := ih
      obtain ⟨y, hy, _⟩ := hstep e he x (by rw [hsrc]; exact hx)
      exact ⟨y, hy⟩
  have hwalk : ∀ (ws : List GraphEdge) (u : String) (x : Int),
      chainFrom g u ws → d u = some ((x : Int) : WithTop Int) →
      ∃ y : Int, d (walkEnd u ws) = some ((y : Int) : WithTop Int)
        ∧ y ≤ x + walkWeight ws := by
    intro ws
    induction ws with
    | nil =>
      intro u x _ hx
      exact ⟨x, by simpa [walkEnd] using hx, by simp [walkWeight]⟩
    | cons e ws ih =>
      rintro u x ⟨he, hsrc, hch⟩ hx
      obtain ⟨y, hy, hyle⟩ := hstep e he x (by rw [hsrc]; exact hx)
      obtain ⟨z, hz, hzle⟩ := ih e.target y hch hy
      refine ⟨z, by simpa [walkEnd] using hz, ?_⟩
      show z ≤ x + walkWeight (e :: ws)
      unfold walkWeight
      omega
  obtain ⟨x, hx⟩ := hreachfin v0 hreach
  obtain ⟨y, hy, hyle⟩ := hwalk es v0 x hchain hx
  rw [hclosed, hx] at hy
  have hxy : (y : Int) = x := by
    have := Option.some.inj hy
    exact_mod_cast this.symm
  omega

/-- C2: on every valid graph containing a directed negative-weight closed
walk whose start is reachable from the start node, `runBellmanFord`'s final
step is the terminal "Negative weight cycle detected!" step and nothing —
in particular no completion step — follows it. -/
theorem bellmanFord_negative_cycle_terminal (g : GraphData)
    (startNodeId v0 : String) (es : List GraphEdge)
    (hvalid : ValidGraph g) (hchain : chainFrom g v0 es)
    (hclosed : walkEnd v0 es = v0) (hneg : walkWeight es < 0)
    (hreach : Reaches g startNodeId v0) :
    (runBellmanFord g startNodeId).steps.getLast?.map (fun s => s.description)
      = some "Negative weight cycle detected! Algorithm cannot find shortest paths." := by
  cases hfind : g.edges.find? (bfRelaxable (bfFinalSt g startNodeId).dist) with
  | none =>
    exfalso
    have hfix : ∀ e ∈ g.edges,
        bfRelaxable (bfFinalSt g startNodeId).dist e = false := by
      intro e he
      have := List.find?_eq_none.mp hfind e he
      simpa using this
    have := bf_fixpoint_no_negcycle g startNodeId hvalid hfix v0 es hchain hclosed hreach
    omega
  | some e =>
    unfold runBellmanFord
    dsimp only
    rw [hfind]
    simp [createDefaultExecution, pushStep, addStep, List.getLast?_concat]


/-- C2 witness: the two-node graph with edges `a→b` weight −2 and `b→a`
weight −1 satisfies the negative-cycle hypotheses, and the run from `a` ends
in the terminal negative-cycle step. -/
theorem bellmanFord_negative_cycle_terminal_witness :
    (ValidGraph gBF ∧ chainFrom gBF "a" [bfE1, bfE2] ∧ walkEnd "a" [bfE1, bfE2] = "a"
      ∧ walkWeight [bfE1, bfE2] < 0 ∧ Reaches gBF "a" "a")
    ∧ (runBellmanFord gBF "a").steps.getLast?.map (fun s => s.description)
        = some "Negative weight cycle detected! Algorithm cannot find shortest paths." := by
  have hvalid : ValidGraph gBF := by
    unfold ValidGraph
    decide
  have hchain : chainFrom gBF "a" [bfE1, bfE2] := by
    refine ⟨by decide, rfl, by decide, rfl, trivial⟩
  refine ⟨⟨hvalid, hchain, rfl, by decide, Reaches.refl "a"⟩, ?_⟩
  exact bellmanFord_negative_cycle_terminal gBF "a" "a" [bfE1, bfE2]
    hvalid hchain rfl (by decide) (Reaches.refl "a")


/-- C7 counterexample: on the three-node test graph the very first emitted
step of `runDijkstra` is the initialization step and it carries no `matrix`
field, contradicting the claim that the initialization step includes a
distance-matrix snapshot. -/
theorem dijkstra_init_step_no_matrix :
    (runDijkstra gDij "a" 20).steps.head?.map (fun s => (s.description, s.matrix))
      = some ("Starting Dijkstra from A", none) := by
  decide

/-- C7 witness: on the three-node test graph the head step of the run lacks a
snapshot while some visit step carries one. -/
theorem dijkstra_snapshot_coverage_witness :
    ((runDijkstra gDij "a" 20).steps.head?.map (fun stp => stp.matrix) = some none)
    ∧ (∃ stp ∈ (runDijkstra gDij "a" 20).steps,
        (∃ u ∈ stp.nodeUpdates, u.state = some NState.visited) ∧ stp.matrix.isSome) :=
  ⟨(dijkstra_snapshot_coverage gDij "a" 20).2.2, by decide⟩


set_option maxRecDepth 4000 in
/-- C1 counterexample: the matrix is initialised symmetrically, so on the
directed example `dist[B][A] = 2`, not `Infinity`; and on a graph with a
(symmetrised) negative cycle the final diagonal is not `0` and the triangle
inequality fails. -/
theorem floydWarshall_claim_counterexample :
    (fwFinal gFW "b" "a" = ((2 : Int) : WithTop Int))
    ∧ (fwFinal gFWneg "a" "a" = ((-2 : Int) : WithTop Int))
    ∧ ¬ (fwFinal gFWneg "a" "b" ≤ fwFinal gFWneg "a" "a" + fwFinal gFWneg "a" "b") := by
  decide

set_option maxRecDepth 8000 in
/-- C1 (amended): on the three-node example the final matrix satisfies the
triangle inequality for all node triples and has a zero diagonal, with
`dist[A][C] = 5` but `dist[B][A] = 2` (edges are treated bidirectionally at
initialisation); adding an isolated node `d`, exactly the pairs with no
undirected path to `d` remain `Infinity`. -/
theorem floydWarshall_example_properties :
    ((nodeIds gFW).all (fun i => (nodeIds gFW).all (fun j => (nodeIds gFW).all (fun k =>
        decide (fwFinal gFW i j ≤ fwFinal gFW i k + fwFinal gFW k j)))) = true)
    ∧ ((nodeIds gFW).all (fun v =>
        decide (fwFinal gFW v v = ((0 : Int) : WithTop Int))) = true)
    ∧ fwFinal gFW "a" "c" = ((5 : Int) : WithTop Int)
    ∧ fwFinal gFW "b" "a" = ((2 : Int) : WithTop Int)
    ∧ ((nodeIds gFWiso).all (fun v =>
        decide (fwFinal gFWiso v "d" = ⊤ ↔ v ≠ "d")) = true)
    ∧ ((runFloydWarshall gFW).steps.getLast?.map (fun s => s.matrix)
        = some (some (fwSnapshot gFW (fwFinal gFW)))) := by
  decide


/-! ### Kruskal: termination of the recursive `find` -/

lemma kFind_step (p : String → Option String) (f : Nat) (i : String) :
    kFind p (f + 1) i
      = match p i with
        | none => none
        | some q => if q = i then some i else kFind p f q := rfl

lemma kFind_add (p : String → Option String) :
    ∀ (f k : Nat) (i r : String), kFind p f i = some r → kFind p (f + k) i = some r := by
  intro f
  induction f with
  | zero => intro k i r h; simp [kFind] at h
  | succ f ih =>
    intro k i r h
    have harith : f + 1 + k = (f + k) + 1 := by omega
    rw [harith]
    cases hp : p i with
    | none =>
      simp only [kFind, hp] at h
      simp at h
    | some q =>
      simp only [kFind, hp] at h ⊢
      by_cases hqi : q = i
      · rw [if_pos hqi] at h ⊢
        exact h
      · rw [if_neg hqi] at h ⊢
        exact ih k q r h

lemma kFind_le (p : String → Option String) {f f' : Nat} (i r : String)
    (hle : f ≤ f') (h : kFind p f i = some r) : kFind p f' i = some r := by
  obtain ⟨k, rfl⟩ := Nat.exists_eq_add_of_le hle
  exact kFind_add p f k i r h

lemma kFind_unique (p : String → Option String) {f f' : Nat} {i r r' : String}
    (h : kFind p f i = some r) (h' : kFind p f' i = some r') : r = r' := by
  have h1 := kFind_le p i r (Nat.le_max_left f f') h
  have h2 := kFind_le p i r' (Nat.le_max_right f f') h'
  rw [h1] at h2
  exact Option.some.inj h2

lemma kFind_isRoot (p : String → Option String) :
    ∀ (f : Nat) (i r : String), kFind p f i = some r → p r = some r := by
  intro f
  induction f with
  | zero => intro i r h; simp [kFind] at h
  | succ f ih =>
    intro i r h
    cases hp : p i with
    | none =>
      simp only [kFind, hp] at h
      simp at h
    | some q =>
      simp only [kFind, hp] at h
      by_cases hqi : q = i
      · rw [if_pos hqi] at h
        have hri : i = r := Option.some.inj h
        subst hri
        rw [hqi] at hp
        exact hp
      · rw [if_neg hqi] at h
        exact ih q r h

lemma kFind_update_ne (p : String → Option String) (rootI rootJ : String)
    (hrootJ : p rootJ = some rootJ) :
    ∀ (f : Nat) (i r : String), kFind p f i = some r → r ≠ rootJ →
      kFind (fun x => if x = rootJ then some rootI else p x) f i = some r := by
  intro f
  induction f with
  | zero => intro i r h _; simp [kFind] at h
  | succ f ih =>
    intro i r h hr
    by_cases hij : i = rootJ
    · subst hij
      simp only [kFind, hrootJ, if_pos rfl] at h
      exact absurd (Option.some.inj h).symm hr
    · cases hp : p i with
      | none =>
        simp only [kFind, hp] at h
        simp at h
      | some q =>
        simp only [kFind, hp, if_neg hij] at h ⊢
        by_cases hqi : q = i
        · rw [if_pos hqi] at h ⊢
          exact h
        · rw [if_neg hqi] at h ⊢
          exact ih q r h hr

lemma kFind_update_rootJ (p : String → Option String) (rootI rootJ : String)
    (hne : rootI ≠ rootJ) (hrootJ : p rootJ = some rootJ)
    (hrootI : p rootI = some rootI) :
    ∀ (f : Nat) (i : String), kFind p f i = some rootJ →
      kFind (fun x => if x = rootJ then some rootI else p x) (f + 1) i
        = some rootI := by
  intro f
  induction f with
  | zero => intro i h; simp [kFind] at h
  | succ f ih =>
    intro i h
    by_cases hij : i = rootJ
    · rw [hij]
      show kFind _ (f + 1 + 1) rootJ = some rootI
      have h1 : kFind (fun x => if x = rootJ then some rootI else p x) 1 rootI
          = some rootI := by
        rw [kFind_step]
        rw [show (if rootI = rootJ then some rootI else p rootI) = some rootI by
          rw [if_neg hne, hrootI]]
        dsimp only
        rw [if_pos rfl]
      have h2 : kFind (fun x => if x = rootJ then some rootI else p x) (f + 1) rootI
          = some rootI := kFind_le _ rootI rootI (by omega) h1
      rw [kFind_step]
      rw [show (if rootJ = rootJ then some rootI else p rootJ) = some rootI by
        rw [if_pos rfl]]
      dsimp only
      rw [if_neg hne]
      exact h2
    · cases hp : p i with
      | none =>
        simp only [kFind, hp] at h
        simp at h
      | some q =>
        simp only [kFind, hp] at h
        by_cases hqi : q = i
        · rw [if_pos hqi] at h
          exact absurd (Option.some.inj h) hij
        · rw [if_neg hqi] at h
          have hq := ih q h
          show kFind _ (f + 1 + 1) i = some rootI
          simp only [kFind, if_neg hij, hp, if_neg hqi]
          exact hq

/-- The union-find invariant: from every node id, chasing parents for at
most `b + 1` steps reaches a root, itself a node id. -/
def Rooted (g : GraphData) (p : String → Option String) (b : Nat) : Prop :=
  ∀ i ∈ nodeIds g, ∃ r, kFind p (b + 1) i = some r ∧ r ∈ nodeIds g

lemma Rooted_mono (g : GraphData) (p : String → Option String) {b b' : Nat}
    (hle : b ≤ b') (h : Rooted g p b) : Rooted g p b' := by
  intro i hi
  obtain ⟨r, hf, hm⟩ := h i hi
  exact ⟨r, kFind_le p i r (by omega) hf, hm⟩

lemma Rooted_init (g : GraphData) : Rooted g (krInitParent g) 0 := by
  intro i hi
  refine ⟨i, ?_, hi⟩
  have hp : krInitParent g i = some i := by
    unfold krInitParent
    rw [if_pos]
    obtain ⟨n, hn, hid⟩ := List.mem_map.mp hi
    exact List.any_eq_true.mpr ⟨n, hn, by simp [hid]⟩
  rw [show (1 : Nat) = 0 + 1 by rfl, kFind_step, hp]
  dsimp only
  rw [if_pos rfl]

lemma Rooted_union (g : GraphData) (p : String → Option String) (b : Nat)
    (rootI rootJ : String) (hne : rootI ≠ rootJ)
    (hI : p rootI = some rootI) (hJ : p rootJ = some rootJ)
    (hImem : rootI ∈ nodeIds g) (h : Rooted g p b) :
    Rooted g (fun x => if x = rootJ then some rootI else p x) (b + 1) := by
  intro i hi
  obtain ⟨r, hfind, hrmem⟩ := h i hi
  by_cases hr : r = rootJ
  · refine ⟨rootI, ?_, hImem⟩
    have hfind' : kFind p (b + 1) i = some rootJ := by rw [hfind, hr]
    exact kFind_update_rootJ p rootI rootJ hne hJ hI (b + 1) i hfind'
  · refine ⟨r, ?_, hrmem⟩
    exact kFind_le _ i r (by omega)
      (kFind_update_ne p rootI rootJ hJ (b + 1) i r hfind hr)

lemma mem_insertByLt {α : Type} (lt : α → α → Bool) (a x : α) :
    ∀ l : List α, x ∈ insertByLt lt a l ↔ x = a ∨ x ∈ l := by
  intro l
  induction l with
  | nil => simp [insertByLt]
  | cons y ys ih =>
    simp only [insertByLt]
    split
    · simp only [List.mem_cons, ih]
      tauto
    · simp only [List.mem_cons]

lemma mem_sortByLt {α : Type} (lt : α → α → Bool) (x : α) :
    ∀ l : List α, x ∈ sortByLt lt l ↔ x ∈ l := by
  intro l
  induction l with
  | nil => simp [sortByLt]
  | cons y ys ih =>
    simp only [sortByLt, List.foldr_cons] at *
    rw [mem_insertByLt]
    simp [ih]

lemma length_insertByLt {α : Type} (lt : α → α → Bool) (a : α) :
    ∀ l : List α, (insertByLt lt a l).length = l.length + 1 := by
  intro l
  induction l with
  | nil => rfl
  | cons y ys ih =>
    simp only [insertByLt]
    split
    · simp [ih]
    · simp

lemma length_sortByLt {α : Type} (lt : α → α → Bool) :
    ∀ l : List α, (sortByLt lt l).length = l.length := by
  intro l
  induction l with
  | nil => rfl
  | cons y ys ih =>
    simp only [sortByLt, List.foldr_cons] at *
    rw [length_insertByLt, ih]
    simp

lemma krGo_isSome (g : GraphData) (sorted : List GraphEdge) (F : Nat) :
    ∀ (es : List GraphEdge) (st : KrSt) (b : Nat),
      (∀ e ∈ es, e.source ∈ nodeIds g ∧ e.target ∈ nodeIds g) →
      Rooted g st.parent b →
      b + 1 + es.length ≤ F →
      (krGo g sorted F es st).isSome := by
  intro es
  induction es with
  | nil => intro st b _ _ _; simp [krGo]
  | cons e rest ih =>
    intro st b hval hroot harith
    obtain ⟨hsrc, htgt⟩ := hval e (by simp)
    obtain ⟨rU, hfU, hmU⟩ := hroot e.source hsrc
    obtain ⟨rV, hfV, hmV⟩ := hroot e.target htgt
    have hFU : kFind st.parent F e.source = some rU :=
      kFind_le _ _ _ (by simp at harith; omega) hfU
    have hFV : kFind st.parent F e.target = some rV :=
      kFind_le _ _ _ (by simp at harith; omega) hfV
    have hrootU := kFind_isRoot st.parent F e.source rU hFU
    have hrootV := kFind_isRoot st.parent F e.target rV hFV
    have hks : ∃ st', krStep g sorted F st e = some st'
        ∧ Rooted g st'.parent (b + 1) := by
      unfold krStep
      dsimp only
      rw [hFU, hFV]
      dsimp only
      by_cases hUV : rU ≠ rV
      · rw [if_pos hUV]
        unfold kUnion
        rw [hFU, hFV]
        dsimp only
        rw [if_pos hUV]
        exact ⟨_, rfl, Rooted_union g st.parent b rU rV hUV hrootU hrootV hmU hroot⟩
      · rw [if_neg hUV]
        exact ⟨_, rfl, Rooted_mono g st.parent (by omega) hroot⟩
    obtain ⟨st', hst', hroot'⟩ := hks
    simp only [krGo]
    rw [hst']
    dsimp only
    split
    · simp
    · refine ih st' (b + 1) (fun e' he' => hval e' (by simp [he'])) hroot' ?_
      simp at harith ⊢
      omega

/-- C10: on every graph with unique node ids whose edges reference existing
nodes, `runKruskals` returns a result — every recursive `find` call
terminates at a self-parent root within the internal fuel, because the
parent map stays a rooted forest throughout. -/
theorem kruskal_find_terminates (g : GraphData)
    (hnodup : (nodeIds g).Nodup) (hvalid : ValidGraph g) :
    (runKruskals g).isSome := by
  unfold runKruskals
  dsimp only
  rw [Option.isSome_map']
  refine krGo_isSome g _ (krFuel g) _ _ 0 ?_ (Rooted_init g) ?_
  · intro e he
    exact hvalid e ((mem_sortByLt _ e g.edges).mp he)
  · rw [length_sortByLt]
    unfold krFuel
    omega

/-- C10 witness: the three-node weighted graph satisfies the hypotheses and
its Kruskal run returns a result. -/
theorem kruskal_find_terminates_witness :
    ((nodeIds gDij).Nodup ∧ ValidGraph gDij) ∧ (runKruskals gDij).isSome := by
  have h1 : (nodeIds gDij).Nodup := by decide
  have h2 : ValidGraph gDij := by
    unfold ValidGraph
    decide
  exact ⟨⟨h1, h2⟩, kruskal_find_terminates gDij h1 h2⟩


/-- C4: `edge.weight || 1` treats a stored weight `0` as absent, so on the
connected two-node graph with parallel edges of weight 1 and weight 0 both
Kruskal and Prim mark the weight-1 edge `inTree` although the weight-0 edge
alone spans the graph: the constructed tree weighs 1 while the minimum
spanning weight is 0. -/
theorem mst_zero_weight_bug :
    ((runKruskals gZW).map inTreeEdgeIds = some [some "e1"])
    ∧ (inTreeEdgeIds (runPrims gZW "a" 10) = [some "e1"])
    ∧ ((gZW.edges.filter (fun e => e.id = "e1")).map (fun e => e.weight) = [some 1])
    ∧ ((gZW.edges.filter (fun e => e.id = "e2")).map
        (fun e => (e.weight, e.source, e.target)) = [(some 0, "a", "b")]) := by
  decide


/-! ### Edge-direction asymmetry -/

lemma mem_getNeighbors (g : GraphData) (n m : String) :
    m ∈ getNeighbors g n ↔ ∃ e ∈ g.edges,
      (e.source = n ∧ e.target = m) ∨ (e.target = n ∧ e.source = m) := by
  unfold getNeighbors
  rw [List.mem_map]
  constructor
  · rintro ⟨e, hmem, hval⟩
    obtain ⟨he, hcond⟩ := List.mem_filter.mp hmem
    by_cases hs : e.source = n
    · refine ⟨e, he, Or.inl ⟨hs, ?_⟩⟩
      rw [← hval, if_pos hs]
    · have ht : e.target = n := by
        simp only [Bool.or_eq_true, decide_eq_true_eq] at hcond
        tauto
      refine ⟨e, he, Or.inr ⟨ht, ?_⟩⟩
      rw [← hval, if_neg hs]
  · rintro ⟨e, he, hor⟩
    rcases hor with ⟨hs, ht⟩ | ⟨ht, hs⟩
    · exact ⟨e, List.mem_filter.mpr ⟨he, by simp [hs]⟩, by rw [if_pos hs]; exact ht⟩
    · refine ⟨e, List.mem_filter.mpr ⟨he, by simp [ht]⟩, ?_⟩
      by_cases hsn : e.source = n
      · rw [if_pos hsn, ht, ← hsn]
        exact hs
      · rw [if_neg hsn]
        exact hs

lemma mem_primAddEdges (g : GraphData) (n : String) (pq : List GraphEdge)
    (e : GraphEdge) :
    e ∈ primAddEdges g n pq ↔ e ∈ pq ∨ (e ∈ g.edges ∧ (e.source = n ∨ e.target = n)) := by
  unfold primAddEdges
  simp [List.mem_append, List.mem_filter]

/-- C6: the undirected-style algorithms read adjacency through
`getNeighbors` (BFS/DFS) or `addEdges` (Prim), both of which accept an edge
from either endpoint, while Dijkstra, Bellman-Ford, A* and Ford-Fulkerson
only follow an edge from its `source`: on the single-edge graph `a→b`,
Dijkstra and Bellman-Ford started at `b` leave `a` at `Infinity`, A* from
`b` to `a` finds no path and Ford-Fulkerson from `b` to `a` reports flow 0,
yet BFS started at `b` visits `a`. -/
theorem edge_direction_asymmetry :
    (∀ (g : GraphData) (n m : String),
        m ∈ getNeighbors g n ↔ ∃ e ∈ g.edges,
          (e.source = n ∧ e.target = m) ∨ (e.target = n ∧ e.source = m))
    ∧ (∀ (g : GraphData) (n : String) (pq : List GraphEdge) (e : GraphEdge),
        e ∈ primAddEdges g n pq
          ↔ e ∈ pq ∨ (e ∈ g.edges ∧ (e.source = n ∨ e.target = n)))
    ∧ ((runDijkstra gSingleEdge "b" 10).steps.getLast?.map (fun s => s.matrix)
        = some (some (MatrixSnap.flat [("a", ⊤), ("b", ((0 : Int) : WithTop Int))])))
    ∧ (∃ s ∈ (runBFS gSingleEdge "b" 10).steps,
        ({ id := "a", state := some NState.visited } : NodeUpdate) ∈ s.nodeUpdates)
    ∧ ((runBellmanFord gSingleEdge "b").steps.getLast?.map (fun s => s.matrix)
        = some (some (MatrixSnap.flat [("a", ⊤), ("b", ((0 : Int) : WithTop Int))])))
    ∧ ((runAStar gSingleEdge "b" "a" (fun _ => 0) 10).steps.getLast?.map
          (fun s => s.description)
        = some "Algorithm finished: no path found to the destination.")
    ∧ ((runFordFulkerson gSingleEdge "b" "a" 10).steps.getLast?.map (fun s => s.result)
        = some (some ["0"])) :=
  ⟨mem_getNeighbors, mem_primAddEdges, by decide, by decide, by decide, by decide,
    by decide⟩

/-- C6 witness: instantiating the `getNeighbors` characterisation on the
single-edge graph: `a` is an undirected neighbor of `b`, so some edge joins
them in one direction or the other. -/
theorem edge_direction_asymmetry_witness :
    ∃ e ∈ gSingleEdge.edges,
      (e.source = "b" ∧ e.target = "a") ∨ (e.target = "b" ∧ e.source = "a") :=
  (edge_direction_asymmetry.1 gSingleEdge "b" "a").mp (by decide)


/-! ### Return shape of every run method -/

/-- C8: every run method, on every input and along every return path
(including A*'s early path-found return and Bellman-Ford's negative-cycle
return), yields an execution with `currentStep = 0` and
`isComplete = false` — all return sites go through
`createDefaultExecution`. -/
theorem run_methods_return_shape :
    (∀ (g : GraphData) (s : String) (fuel : Nat),
        (runBFS g s fuel).currentStep = 0 ∧ (runBFS g s fuel).isComplete = false)
    ∧ (∀ (g : GraphData) (s : String) (fuel : Nat),
        (runDFS g s fuel).currentStep = 0 ∧ (runDFS g s fuel).isComplete = false)
    ∧ (∀ (g : GraphData) (s : String) (fuel : Nat),
        (runDijkstra g s fuel).currentStep = 0
          ∧ (runDijkstra g s fuel).isComplete = false)
    ∧ (∀ (g : GraphData) (s e : String) (h : String → Int) (fuel : Nat),
        (runAStar g s e h fuel).currentStep = 0
          ∧ (runAStar g s e h fuel).isComplete = false)
    ∧ (∀ (g : GraphData) (s : String),
        (runBellmanFord g s).currentStep = 0
          ∧ (runBellmanFord g s).isComplete = false)
    ∧ (∀ g : GraphData,
        (runFloydWarshall g).currentStep = 0
          ∧ (runFloydWarshall g).isComplete = false)
    ∧ (∀ (g : GraphData) (s : String) (fuel : Nat),
        (runPrims g s fuel).currentStep = 0 ∧ (runPrims g s fuel).isComplete = false)
    ∧ (∀ (g : GraphData) (ex : AlgorithmExecution), runKruskals g = some ex →
        ex.currentStep = 0 ∧ ex.isComplete = false)
    ∧ (∀ (g : GraphData) (s t : String) (fuel : Nat),
        (runFordFulkerson g s t fuel).currentStep = 0
          ∧ (runFordFulkerson g s t fuel).isComplete = false) := by
  refine ⟨fun g s fuel => ⟨rfl, rfl⟩, fun g s fuel => ⟨rfl, rfl⟩,
    fun g s fuel => ⟨rfl, rfl⟩, fun g s e h fuel => ⟨rfl, rfl⟩, ?_,
    fun g => ⟨rfl, rfl⟩, fun g s fuel => ⟨rfl, rfl⟩, ?_,
    fun g s t fuel => ⟨rfl, rfl⟩⟩
  · intro g s
    unfold runBellmanFord
    dsimp only
    cases g.edges.find? (bfRelaxable (bfFinalSt g s).dist) <;> exact ⟨rfl, rfl⟩
  · intro g ex h
    unfold runKruskals at h
    dsimp only at h
    rw [Option.map_eq_some'] at h
    obtain ⟨st, _, hst⟩ := h
    rw [← hst]
    exact ⟨rfl, rfl⟩

/-- C8 witness: concrete instantiations, including a successful Kruskal run
discharging the `some` hypothesis. -/
theorem run_methods_return_shape_witness :
    ((runBFS gDij "a" 20).currentStep = 0 ∧ (runBFS gDij "a" 20).isComplete = false)
    ∧ ∃ ex, runKruskals gDij = some ex
        ∧ ex.currentStep = 0 ∧ ex.isComplete = false := by
  have h := run_methods_return_shape
  refine ⟨h.1 gDij "a" 20, ?_⟩
  have hsome : (runKruskals gDij).isSome := by decide
  obtain ⟨ex, hex⟩ := Option.isSome_iff_exists.mp hsome
  exact ⟨ex, hex, h.2.2.2.2.2.2.2.1 gDij ex hex⟩

end VisionGraph
